import Mathlib

/-!
# otawa-x86: the hand-written x86 decoder (`x86_decoder.cpp`)

A shallow embedding of `otawa::x86::Decoder` and of the record class
`Decoder::Inst` it returns, followed by the properties proved about them.

Conventions of the embedding:

* bytes, addresses, offsets and operand values are natural numbers; a byte
  read from a buffer is reduced modulo 256, a value stored in an operand slot
  (`arg_t = t::uint32`) is reduced modulo 2^32;
* a C++ method that mutates the decoder takes the decoder value and returns
  the new one next to its result;
* addresses, offsets and sizes are not truncated: an image is taken to fit its
  address space (no segment reaches past the largest address, no buffer holds
  2^32 bytes or more);
* a null pointer is `none`;
* the local variable `opcode` of `decode` is read by the `switch` even when
  the unchecked `curs.read(opcode)` has failed; the value it then holds is
  indeterminate and is an explicit argument (`uninit`) of the embedding.
-/

namespace otawa.x86

/-! ## Framework types the decoder relies on -/

/-- Modelled from the spec: `gel::ImageSegment` (library type, not part of the
repository): a base address, a byte buffer covering the whole address range
of the segment, and an executable flag. -/
structure Segment where
  baseAddress : Nat
  buffer : List Nat
  isExecutable : Bool
  deriving DecidableEq, Repr

/-- Number of bytes of the segment. -/
def Segment.size (s : Segment) : Nat := s.buffer.length

/-- Membership test of `s->range().contains(a)`. -/
def Segment.contains (s : Segment) (a : Nat) : Bool :=
  decide (s.baseAddress ≤ a) && decide (a < s.baseAddress + s.size)

/-- Modelled from the spec: `gel::Image` seen through `segments()`, the
ordered list of its segments. -/
abbrev Image := List Segment

/-- Modelled from the spec: `gel::Cursor` (library type, not part of the
repository), a bounded sequential reader: the buffer and the current read
offset.  A read that does not fit fails, leaves the offset where it was and
does not touch the destination variable. -/
structure Cursor where
  buf : List Nat
  off : Nat
  deriving DecidableEq, Repr

/-- Default-constructed cursor: no buffer. -/
def Cursor.empty : Cursor := ⟨[], 0⟩

/-- Cursor built by `curs = s->buffer()`. -/
def Cursor.ofBuffer (b : List Nat) : Cursor := ⟨b, 0⟩

def Cursor.size (c : Cursor) : Nat := c.buf.length

def Cursor.offset (c : Cursor) : Nat := c.off

def Cursor.avail (c : Cursor) (n : Nat) : Bool := decide (c.off + n ≤ c.buf.length)

def Cursor.move (c : Cursor) (pos : Nat) : Cursor := { c with off := pos }

/-- Byte stored at position `k` of the buffer, as a `t::uint8`. -/
def Cursor.byteAt (c : Cursor) (k : Nat) : Option Nat :=
  (c.buf[k]?).map (fun b => b % 256)

/-- The call `read(t::uint8&)`: the byte and the advanced cursor, or failure. -/
def Cursor.read (c : Cursor) : Option (Nat × Cursor) :=
  match c.byteAt c.off with
  | some b => some (b, { c with off := c.off + 1 })
  | none => none

/-- Value of a byte seen as a `t::int8`. -/
def int8 (b : Nat) : Int :=
  if b % 256 < 128 then ((b % 256 : Nat) : Int) else ((b % 256 : Nat) : Int) - 256

/-- The call `read(t::int8&)`. -/
def Cursor.readInt8 (c : Cursor) : Option (Int × Cursor) :=
  match c.read with
  | some (b, c1) => some (int8 b, c1)
  | none => none

/-- The call `read(t::uint32&)`: four bytes, least significant first (x86
images are little-endian). -/
def Cursor.readUInt32 (c : Cursor) : Option (Nat × Cursor) :=
  match c.byteAt c.off, c.byteAt (c.off + 1), c.byteAt (c.off + 2), c.byteAt (c.off + 3) with
  | some b0, some b1, some b2, some b3 =>
    some (b0 + 256 * b1 + 65536 * b2 + 16777216 * b3, { c with off := c.off + 4 })
  | _, _, _, _ => none

/-- A read whose result is not tested: on failure the destination keeps the
value `old` it had before the call. -/
def Cursor.readOr (c : Cursor) (old : Nat) : Nat × Cursor :=
  match c.read with
  | some (b, c1) => (b, c1)
  | none => (old, c)

/-- Conversion of a signed value to an operand slot (`arg_t`, 32 bits unsigned). -/
def toArg (x : Int) : Nat := (x % 4294967296).toNat

/-- An operand slot read back as a `t::int32`. -/
def toInt32 (v : Nat) : Int :=
  if v % 4294967296 < 2147483648 then ((v % 4294967296 : Nat) : Int)
  else ((v % 4294967296 : Nat) : Int) - 4294967296

/-! ## Registers (`x86.cpp`) -/

inductive RegKind where
  | INT | ADDR | BITS
  deriving DecidableEq, Repr

/-- A `hard::Register` as built by `Register::Make(name).kind(k).size(n)`. -/
structure Register where
  name : String
  kind : RegKind
  size : Nat
  deriving DecidableEq, Repr

def EAX : Register := ⟨"EAX", .INT, 32⟩
def EBX : Register := ⟨"EBX", .INT, 32⟩
def ECX : Register := ⟨"ECX", .INT, 32⟩
def EDX : Register := ⟨"EDX", .INT, 32⟩
def ESP : Register := ⟨"ESP", .ADDR, 32⟩
def EBP : Register := ⟨"EBS", .ADDR, 32⟩
def ESI : Register := ⟨"ESI", .ADDR, 32⟩
def EDI : Register := ⟨"EDI", .ADDR, 32⟩

/-- The table `reg32`, indexed by the 3-bit register encoding. -/
def reg32 : List Register := [EAX, ECX, EDX, EBX, ESP, EBP, ESI, EDI]

/-- Segment registers a segment-override byte selects (`seg = &CS` ...). -/
inductive SegReg where
  | CS | SS | DS | ES | FS | GS
  deriving DecidableEq, Repr

/-! ## ModR/M fields -/

def modrm_mod (b : Nat) : Nat := ((b % 256) >>> 6) % 256

def modrm_reg (b : Nat) : Nat := (((b % 256) >>> 3) &&& 0b111) % 256

def modrm_rm (b : Nat) : Nat := ((b % 256) &&& 0b111) % 256

/-! ## Instruction shapes -/

inductive arg_type_t where
  | R32_R | R32_W | SIMM | UIMM | IPREL
  deriving DecidableEq, Repr

/-- Classification bitset `Inst::kind_t`. -/
abbrev kind_t := Nat

/-- Modelled from the spec: the flag constants of `Inst::kind_t` are declared
in a framework header that is not part of the repository; they are taken as
pairwise distinct single bits. -/
def IS_COND : kind_t := 0x00001
def IS_CONTROL : kind_t := 0x00002
def IS_RETURN : kind_t := 0x00008
def IS_MEM : kind_t := 0x00010
def IS_LOAD : kind_t := 0x00020
def IS_STORE : kind_t := 0x00040
def IS_ALU : kind_t := 0x00200
def IS_INTERN : kind_t := 0x04000
def IS_INDIRECT : kind_t := 0x20000

/-- Test `kind_t::isControl()`. -/
def isControl (k : kind_t) : Bool := (k &&& IS_CONTROL) != 0

/-- Test `kind_t::isIndirect()`. -/
def isIndirect (k : kind_t) : Bool := (k &&& IS_INDIRECT) != 0

/-- The descriptor `inst_t`.  `args` always has four entries: the entries an
initialiser leaves out are zero, that is `R32_R`. -/
structure inst_t where
  format : String
  kind : kind_t
  argc : Nat
  args : List arg_type_t
  deriving DecidableEq, Repr

def JMP : inst_t := ⟨"jmp %p", IS_CONTROL, 1, [.IPREL, .R32_R, .R32_R, .R32_R]⟩

def MOV32 : inst_t := ⟨"mov %1, %0", IS_ALU, 2, [.R32_W, .R32_R, .R32_R, .R32_R]⟩

def MOVI_DIS8 : inst_t :=
  ⟨"movl %0, %1(%2)", IS_MEM ||| IS_STORE, 3, [.UIMM, .SIMM, .R32_R, .R32_R]⟩

def PUSH : inst_t := ⟨"push %0", IS_MEM ||| IS_STORE, 1, [.R32_R, .R32_R, .R32_R, .R32_R]⟩

def POP : inst_t := ⟨"pop %0", IS_MEM ||| IS_LOAD, 1, [.R32_W, .R32_R, .R32_R, .R32_R]⟩

def SUB32I : inst_t := ⟨"sub %0, %1", IS_ALU, 2, [.SIMM, .R32_W, .R32_R, .R32_R]⟩

def ENDBR32 : inst_t := ⟨"endbr32", IS_INTERN, 0, [.R32_R, .R32_R, .R32_R, .R32_R]⟩

def UNKNOWN : inst_t := ⟨"unknown", 0, 0, [.R32_R, .R32_R, .R32_R, .R32_R]⟩

/-! ## The record class `Decoder::Inst` -/

/-- Members of an `Inst` that the constructor and `make` fix.  `args` lists
the operand slots that were assigned, in order; the remaining slots of the
C++ array are never written. -/
structure InstData where
  _addr : Nat
  _size : Nat
  _inst : inst_t
  args : List Nat
  deriving DecidableEq, Repr

/-- An `Inst` object: the fixed members and the memo `_target`, a pointer to
another record (`none` is the null pointer, the pointee is given by its
members).  The member `_inst` is a reference (`const inst_t&`):
`_instDangling` tells that it was bound to a temporary, the value returned by
`alu_imm`, which is destroyed when `decode` returns; `_inst` then stands for
what the temporary held and reading through it is undefined.  The references
to the static shapes never dangle. -/
structure Inst extends InstData where
  _target : Option InstData
  _instDangling : Bool := false
  deriving DecidableEq, Repr

/-- The constructor `Inst(dec, addr, size, inst)`: `_target(nullptr)`, no
operand slot assigned. -/
def Inst.new (addr size : Nat) (inst : inst_t) : Inst :=
  { _addr := addr, _size := size, _inst := inst, args := [], _target := none }

/-- The method `kind()`: the classification read through `_inst` (the value the
temporary held when the reference dangles, where the real read is
indeterminate). -/
def Inst.kind (i : Inst) : kind_t := i._inst.kind

def Inst.address (i : Inst) : Nat := i._addr

def Inst.size (i : Inst) : Nat := i._size

/-! ## The decoder -/

/-- The class `Decoder`: the image it was built on, and the cached segment
(`base`, `curs`). -/
structure Decoder where
  _image : Image
  base : Nat
  curs : Cursor
  deriving DecidableEq, Repr

/-- A freshly constructed decoder: `curs` is default-constructed, `base` is not
initialised and holds an arbitrary value `b`. -/
def Decoder.init (image : Image) (b : Nat) : Decoder := ⟨image, b, Cursor.empty⟩

def Decoder.instSize : Nat := 1

def PREF_LOCK : Nat := 0x0001
def PREF_REPNEZ : Nat := 0x0002
def PREF_REPEZZ : Nat := 0x0004
def PREF_NOT_TAKEN : Nat := 0x0008
def PREF_TAKEN : Nat := 0x0010
def PREF_OPER_OVER : Nat := 0x0020
def PREF_ADDR_OVER : Nat := 0x0040

/-- The method `size(a)`: `curs.offset() - (a - base)`. -/
def Decoder.size (d : Decoder) (a : Nat) : Nat := d.curs.offset - (a - d.base)

def Decoder.unknown (_d : Decoder) (addr size : Nat) : Inst := Inst.new addr size UNKNOWN

/-- The overload `make(a, inst)`. -/
def Decoder.make0 (d : Decoder) (a : Nat) (inst : inst_t) : Inst :=
  Inst.new a (d.size a) inst

/-- The overload `make(a, inst, arg1)`. -/
def Decoder.make1 (d : Decoder) (a : Nat) (inst : inst_t) (arg1 : Nat) : Inst :=
  { Inst.new a (d.size a) inst with args := [arg1 % 4294967296] }

/-- The overload `make(a, inst, arg1, arg2)`. -/
def Decoder.make2 (d : Decoder) (a : Nat) (inst : inst_t) (arg1 arg2 : Nat) : Inst :=
  { Inst.new a (d.size a) inst with args := [arg1 % 4294967296, arg2 % 4294967296] }

/-- The overload `make(a, inst, arg1, arg2, arg3)`. -/
def Decoder.make3 (d : Decoder) (a : Nat) (inst : inst_t) (arg1 arg2 arg3 : Nat) : Inst :=
  { Inst.new a (d.size a) inst with
    args := [arg1 % 4294967296, arg2 % 4294967296, arg3 % 4294967296] }

def Decoder.alu_imm (code : Nat) : inst_t :=
  if code = 5 then SUB32I else UNKNOWN

/-- The `switch(byte)` of the scan loop: the updated `prefs` and `seg` for a
legacy byte, `none` for the `default` label (`done = true`). -/
def legacyByte (byte : Nat) (prefs : Nat) (seg : Option SegReg) :
    Option (Nat × Option SegReg) :=
  if byte = 0xF0 then some (prefs ||| PREF_LOCK, seg)
  else if byte = 0xF2 then some (prefs ||| PREF_REPNEZ, seg)
  else if byte = 0xF3 then some (prefs ||| PREF_REPEZZ, seg)
  else if byte = 0x2E then some (prefs ||| PREF_NOT_TAKEN, some SegReg.CS)
  else if byte = 0x36 then some (prefs, some SegReg.SS)
  else if byte = 0x3E then some (prefs ||| PREF_TAKEN, some SegReg.DS)
  else if byte = 0x26 then some (prefs, some SegReg.ES)
  else if byte = 0x64 then some (prefs, some SegReg.FS)
  else if byte = 0x65 then some (prefs, some SegReg.GS)
  else if byte = 0x66 then some (prefs ||| PREF_OPER_OVER, seg)
  else if byte = 0x67 then some (prefs ||| PREF_ADDR_OVER, seg)
  else none

/-- How the scan loop ends: a failed first read (`return unknown(a, size(a))`)
or `done`. -/
inductive ScanExit where
  | truncated (c : Cursor)
  | done (c : Cursor) (byte : Nat) (prefs : Nat) (seg : Option SegReg)
  deriving DecidableEq, Repr

/-- The loop `while(!done)` of `decode`.  Each round reads a byte under test
(`if(!curs.read(byte))`) and then reads again into the same variable
(`curs.read(byte)`, unchecked) before the `switch`.  The first argument bounds
the number of rounds; `none` means the bound was reached. -/
def scanLoop : Nat → Cursor → Nat → Option SegReg → Option ScanExit
  | 0, _, _, _ => none
  | fuel + 1, c, prefs, seg =>
    match c.read with
    | none => some (ScanExit.truncated c)
    | some (b, c1) =>
      let r := c1.readOr b
      match legacyByte r.1 prefs seg with
      | some (prefs1, seg1) => scanLoop fuel r.2 prefs1 seg1
      | none => some (ScanExit.done r.2 r.1 prefs seg)

/-- The block `// look for the segment`: the decoder with the cache brought up
to date, or `none` where the source returns `nullptr`. -/
def Decoder.lookup (d : Decoder) (a : Nat) : Option Decoder :=
  if d.curs.size = 0 ∨ d.base > a ∨ a ≥ d.base + d.curs.size then
    match d._image.find? (fun s => s.contains a) with
    | some s =>
      if !s.isExecutable then none
      else some { d with curs := Cursor.ofBuffer s.buffer, base := s.baseAddress }
    | none => none
  else some d

/-- The part of `decode` from `// scan opcode` on, run with the cursor the
scan loop left; `uninit` is the value `opcode` holds before its read.  In the
case 0x83 the shape handed to `make` is the temporary `alu_imm(reg)` returns by
value, so the reference the record keeps dangles. -/
def Decoder.dispatch (d : Decoder) (a : Nat) (uninit : Nat) : Inst × Decoder :=
  let r0 := d.curs.readOr (uninit % 256)
  let opcode := r0.1
  let d0 := { d with curs := r0.2 }
  if 0x50 ≤ opcode ∧ opcode ≤ 0x57 then (d0.make1 a PUSH (opcode &&& 0x7), d0)
  else if 0x58 ≤ opcode ∧ opcode ≤ 0x5F then (d0.make1 a POP (opcode &&& 0x7), d0)
  else if opcode = 0xEB then
    match d0.curs.readInt8 with
    | none => (d0.unknown a (d0.size a), d0)
    | some (dis, c1) =>
      let d1 := { d0 with curs := c1 }
      (d1.make1 a JMP (toArg dis), d1)
  else if opcode = 0x0F then
    match d0.curs.read with
    | none => (d0.unknown a (d0.size a), d0)
    | some (opcode2, c1) =>
      let d1 := { d0 with curs := c1 }
      if opcode2 = 0x1e then
        if !d1.curs.avail 1 then (d1.unknown a (d1.size a), d1)
        else
          let r2 := d1.curs.readOr opcode2
          let d2 := { d1 with curs := r2.2 }
          if r2.1 = 0xfb then (d2.make0 a ENDBR32, d2)
          else (d2.unknown a (d2.size a), d2)
      else if opcode2 = 0x38 ∨ opcode2 = 0x3a then (d1.unknown a (d1.size a), d1)
      else (d1.unknown a (d1.size a), d1)
  else
    match d0.curs.read with
    | none => (d0.unknown a (d0.size a), d0)
    | some (modrm, c1) =>
      let d1 := { d0 with curs := c1 }
      let mod := modrm_mod modrm
      let reg := modrm_reg modrm
      let rm := modrm_rm modrm
      if opcode = 0x89 then
        if mod = 0b11 then (d1.make2 a MOV32 rm reg, d1)
        else (d1.unknown a (d1.size a), d1)
      else if opcode = 0x83 then
        if mod = 0b11 then
          match d1.curs.readInt8 with
          | none => (d1.unknown a (d1.size a), d1)
          | some (imm, c2) =>
            let d2 := { d1 with curs := c2 }
            ({ d2.make2 a (Decoder.alu_imm reg) (toArg imm) rm with
                _instDangling := true }, d2)
        else (d1.unknown a (d1.size a), d1)
      else if opcode = 0xc7 then
        match d1.curs.readInt8 with
        | none => (d1.unknown a (d1.size a), d1)
        | some (dis, c2) =>
          let d2 := { d1 with curs := c2 }
          match d2.curs.readUInt32 with
          | none => (d2.unknown a (d2.size a), d2)
          | some (imm, c3) =>
            let d3 := { d2 with curs := c3 }
            (d3.make3 a MOVI_DIS8 imm (toArg dis) rm, d3)
      else (d1.unknown a (d1.size a), d1)

/-- The method `decode(a)`: the record (`none` for `nullptr`) and the decoder
after the call.  The scan loop is given one round per byte of the buffer plus
one, which it cannot exhaust (`scanLoop_fuel`). -/
def Decoder.decode (d : Decoder) (a : Nat) (uninit : Nat) : Option Inst × Decoder :=
  match d.lookup a with
  | none => (none, d)
  | some d1 =>
    let d2 := { d1 with curs := d1.curs.move (a - d1.base) }
    match scanLoop (d2.curs.size + 1) d2.curs 0 none with
    | none => (none, d2)
    | some (ScanExit.truncated c) =>
      let d3 := { d2 with curs := c }
      (some (d3.unknown a (d3.size a)), d3)
    | some (ScanExit.done c _ _ _) =>
      let r := Decoder.dispatch { d2 with curs := c } a uninit
      (some r.1, r.2)

/-! ## Methods of the record -/

/-- A register set (`otawa::RegSet`): `add` appends at the end. -/
abbrev RegSet := List Nat

/-- One round of the loop of `readRegSet`, for operand position `k`.  `none`
stands for an access outside `_inst.args`, outside the assigned operand slots
or outside `reg32`. -/
def Inst.readStep (platformNumber : Register → Nat) (i : Inst) (set : RegSet) (k : Nat) :
    Option RegSet :=
  match i._inst.args[k]? with
  | some arg_type_t.R32_R =>
    match i.args[k]? with
    | some v =>
      match reg32[v]? with
      | some r => some (set ++ [platformNumber r])
      | none => none
    | none => none
  | some _ => some set
  | none => none

/-- The method `readRegSet(set)`; `platformNumber` is the framework accessor
`Register::platformNumber()`.  `none` also stands for the read of `argc` and of
the operand kinds through a dangling `_inst`. -/
def Inst.readRegSet (platformNumber : Register → Nat) (i : Inst) (set : RegSet) :
    Option RegSet :=
  if i._instDangling then none
  else (List.range i._inst.argc).foldlM (Inst.readStep platformNumber i) set

/-- One round of the loop of `writeRegSet`, for operand position `k`. -/
def Inst.writeStep (platformNumber : Register → Nat) (i : Inst) (set : RegSet) (k : Nat) :
    Option RegSet :=
  match i._inst.args[k]? with
  | some arg_type_t.R32_W =>
    match i.args[k]? with
    | some v =>
      match reg32[v]? with
      | some r => some (set ++ [platformNumber r])
      | none => none
    | none => none
  | some _ => some set
  | none => none

/-- The method `writeRegSet(set)`. -/
def Inst.writeRegSet (platformNumber : Register → Nat) (i : Inst) (set : RegSet) :
    Option RegSet :=
  if i._instDangling then none
  else (List.range i._inst.argc).foldlM (Inst.writeStep platformNumber i) set

/-- Sum of an address (`gel::address_t`, taken as 64 bits unsigned) and a
signed 32-bit value. -/
def addrAdd (a : Nat) (x : Int) : Nat := (((a : Int) + x) % 18446744073709551616).toNat

/-- Position of the first operand of kind `IPREL` among the first `argc`, the
one the loop of `target` stops at. -/
def Inst.firstIPREL (i : Inst) : Option Nat :=
  (List.range i._inst.argc).find? (fun k => decide (i._inst.args[k]? = some arg_type_t.IPREL))

/-- The method `target()`: the returned pointer, the record and the decoder
after the call.  An operand slot that was never assigned reads as 0. -/
def Inst.target (i : Inst) (dec : Decoder) (uninit : Nat) :
    Option InstData × Inst × Decoder :=
  if i._target = none then (i._target, i, dec)
  else
    match i.firstIPREL with
    | some k =>
      let r := dec.decode (addrAdd i._addr (toInt32 (i.args.getD k 0))) uninit
      (none, { i with _target := r.1.map Inst.toInstData }, r.2)
    | none => (none, i, dec)

/-- Decoder states reachable from a freshly constructed decoder on `image` by
calls to `decode`. -/
inductive Reachable (image : Image) : Decoder → Prop where
  | init (b : Nat) : Reachable image (Decoder.init image b)
  | step {d : Decoder} (a uninit : Nat) :
      Reachable image d → Reachable image (d.decode a uninit).2

/-- The loop of `dump(out)` from a position of the format on: `fmt` is the part
of the format still to be read, `out` the text written so far.  `hex` is the
formatter `io::hex` and `showAddr` the printing of an address, both library
code.  `none` stands for an access outside the format, outside `_inst.args`,
outside the assigned operand slots or outside `reg32`. -/
def Inst.dumpFrom (hex showAddr : Nat → String) (i : Inst) : List Char → String → Option String
  | [], out => some out
  | c :: rest, out =>
    if c ≠ '%' then Inst.dumpFrom hex showAddr i rest (out.push c)
    else
      match rest with
      | [] => none
      | x :: rest2 =>
        if x.toNat < '0'.toNat then none
        else
          match i._inst.args[x.toNat - '0'.toNat]?, i.args[x.toNat - '0'.toNat]? with
          | some arg_type_t.R32_R, some v =>
            match reg32[v]? with
            | some r => Inst.dumpFrom hex showAddr i rest2 (out ++ r.name)
            | none => none
          | some arg_type_t.R32_W, some v =>
            match reg32[v]? with
            | some r => Inst.dumpFrom hex showAddr i rest2 (out ++ r.name)
            | none => none
          | some arg_type_t.SIMM, some v =>
            if toInt32 v < 0 then
              Inst.dumpFrom hex showAddr i rest2 (out.push '-' ++ hex (- toInt32 v).toNat)
            else Inst.dumpFrom hex showAddr i rest2 (out ++ hex (toInt32 v).toNat)
          | some arg_type_t.UIMM, some v => Inst.dumpFrom hex showAddr i rest2 (out ++ hex v)
          | some arg_type_t.IPREL, some v =>
            Inst.dumpFrom hex showAddr i rest2
              (out ++ "0x" ++ showAddr (addrAdd i._addr (toInt32 v)))
          | _, _ => none

/-- The method `dump(out)` on an empty output: the text written.  `none` also
stands for the read of the format through a dangling `_inst`. -/
def Inst.dump (hex showAddr : Nat → String) (i : Inst) : Option String :=
  if i._instDangling then none
  else Inst.dumpFrom hex showAddr i i._inst.format.toList ""

/-- The method `target()` with the call `_dec.decode` replaced by an arbitrary
function `resolve` on an arbitrary decoder state. -/
def Inst.targetWith {σ : Type} (resolve : Nat → σ → Option Inst × σ) (i : Inst) (st : σ) :
    Option InstData × Inst × σ :=
  if i._target = none then (i._target, i, st)
  else
    match i.firstIPREL with
    | some k =>
      let r := resolve (addrAdd i._addr (toInt32 (i.args.getD k 0))) st
      (none, { i with _target := r.1.map Inst.toInstData }, r.2)
    | none => (none, i, st)

/-! ## The branch record of `zygdis_decoder.cpp` -/

namespace zygdis

/-- The class `Decoder::Branch` with the members inherited from `BaseInst`;
`ι` is the type of the records `decode` returns. -/
structure Branch (ι : Type) where
  a : Nat
  s : Nat
  k : kind_t
  o : Int
  t : Option ι

/-- The method `Branch::target()`, over a given `decode` acting on a decoder
state `σ`: the returned pointer, the record and the decoder state after the
call.  `a + s + o` is computed on 32 bits. -/
def Branch.target {ι σ : Type} (decode : Nat → σ → Option ι × σ) (b : Branch ι) (st : σ) :
    Option ι × Branch ι × σ :=
  if isIndirect b.k then (none, b, st)
  else
    match b.t with
    | none =>
      let r := decode ((((b.a + b.s : Nat) : Int) + b.o) % 4294967296).toNat st
      (r.1, { b with t := r.1 }, r.2)
    | some x => (some x, b, st)

end zygdis

/-- The constructor `Branch(decoder, addr, size, kind, off)`: `t(nullptr)`. -/
def zygdis.Branch.new (ι : Type) (addr size : Nat) (kind : kind_t) (off : Int) : zygdis.Branch ι :=
  { a := addr, s := size, k := kind, o := off, t := none }

/-- The address `a + s + o` that `target()` hands to `decode`, computed on 32
bits. -/
def zygdis.Branch.dest {ι : Type} (b : zygdis.Branch ι) : Nat :=
  ((((b.a + b.s : Nat) : Int) + b.o) % 4294967296).toNat

/-! ## Concrete images used below -/

/-- A decoder on a single executable segment. -/
def single (base : Nat) (bytes : List Nat) : Decoder :=
  Decoder.init [⟨base, bytes, true⟩] 0

/-- Two segments over the same address, the first one not executable. -/
def overlapImage : Image := [⟨0x1000, [0x90], false⟩, ⟨0x1000, [0x90], true⟩]

/-- A data segment followed by a code segment. -/
def mixedImage : Image := [⟨0x1000, [0x90, 0x90], false⟩, ⟨0x2000, [0x90, 0x90], true⟩]

/-- A short jump preceded by two padding bytes and followed by padding. -/
def jumpBytes : List Nat := [0x90, 0x90, 0xEB, 0x05, 0, 0, 0, 0, 0, 0, 0, 0]

/-! ## Auxiliary predicates -/

/-- The cache is empty or holds an executable segment of the image. -/
def CacheOk (image : Image) (d : Decoder) : Prop :=
  d._image = image ∧
  (d.curs.size = 0 ∨
    ∃ s ∈ image, s.isExecutable = true ∧ d.base = s.baseAddress ∧ d.curs.buf = s.buffer)

/-- Whether `decode(a)` gets to read its opcode byte from the buffer (also true
when it returns before the opcode switch). -/
def Decoder.opcodeRead (d : Decoder) (a : Nat) : Bool :=
  match d.lookup a with
  | none => true
  | some d1 =>
    match scanLoop (d1.curs.size + 1) (d1.curs.move (a - d1.base)) 0 none with
    | some (ScanExit.done c _ _ _) => decide (c.off < c.buf.length)
    | _ => true

/-- The shapes and operand lists of the records `decode` builds (for a record of
the case 0x83 the shape is the value of the temporary). -/
def Inst.Catalogued (i : Inst) : Prop :=
  (i._inst = UNKNOWN ∧ i.args = []) ∨ (i._inst = ENDBR32 ∧ i.args = []) ∨
  (∃ r, r < 8 ∧ i._inst = PUSH ∧ i.args = [r]) ∨
  (∃ r, r < 8 ∧ i._inst = POP ∧ i.args = [r]) ∨
  (∃ x, i._inst = JMP ∧ i.args = [x]) ∨
  (∃ rm reg, rm < 8 ∧ reg < 8 ∧ i._inst = MOV32 ∧ i.args = [rm, reg]) ∨
  (∃ x rm, rm < 8 ∧ i._inst = SUB32I ∧ i.args = [x, rm]) ∨
  (∃ x rm, rm < 8 ∧ i._inst = UNKNOWN ∧ i.args = [x, rm]) ∨
  (∃ x y rm, rm < 8 ∧ i._inst = MOVI_DIS8 ∧ i.args = [x, y, rm])

/-- Cursor `c` reads the buffer of `c0` and stands within it. -/
def Cursor.Within (c0 c : Cursor) : Prop := c.buf = c0.buf ∧ c.off ≤ c0.buf.length

/-- The cursor the scan loop leaves. -/
def ScanExit.curs : ScanExit → Cursor
  | ScanExit.truncated c => c
  | ScanExit.done c _ _ _ => c

/-- Values of the operands of kind `t` among the first `argc`, in order. -/
def Inst.operandsOfKind (i : Inst) (t : arg_type_t) : List Nat :=
  (List.range i._inst.argc).filterMap
    (fun k => if i._inst.args[k]? = some t then i.args[k]? else none)

/-- Indices (platform numbers) of the registers that the operands of kind `t`
select in `reg32`. -/
def Inst.regIndices (platformNumber : Register → Nat) (i : Inst) (t : arg_type_t) : List Nat :=
  (i.operandsOfKind t).filterMap (fun v => (reg32[v]?).map platformNumber)

/-- The address ranges of the segments of an image are pairwise disjoint. -/
def Image.Disjoint (image : Image) : Prop :=
  image.Pairwise (fun s1 s2 => ∀ a, ¬ (s1.contains a = true ∧ s2.contains a = true))

/-- Every `%` of a format is followed by a decimal digit smaller than `argc`. -/
def placeholdersOk (argc : Nat) : List Char → Bool
  | [] => true
  | c :: rest =>
    if c ≠ '%' then placeholdersOk argc rest
    else
      match rest with
      | [] => false
      | x :: rest2 =>
        decide ('0'.toNat ≤ x.toNat) && decide (x.toNat - '0'.toNat < argc) &&
          placeholdersOk argc rest2

/-- A shape is well formed for rendering: at most four operands, and every
placeholder of the format names one of them. -/
def inst_t.wellFormed (s : inst_t) : Bool :=
  decide (s.argc ≤ 4) && placeholdersOk s.argc s.format.toList

/-- The instruction catalogue. -/
def catalogue : List inst_t := [JMP, MOV32, MOVI_DIS8, PUSH, POP, SUB32I, ENDBR32, UNKNOWN]

/-! ## Properties -/


/-! ### The cursor -/

theorem Cursor.read_some {c c1 : Cursor} {b : Nat} (h : c.read = some (b, c1)) :
    c1.buf = c.buf ∧ c1.off = c.off + 1 ∧ c.off < c.buf.length ∧ c.byteAt c.off = some b := by
  unfold Cursor.read at h
  split at h
  · rename_i b0 hb
    simp only [Option.some.injEq, Prod.mk.injEq] at h
    obtain ⟨h1, h2⟩ := h
    subst h1 h2
    refine ⟨rfl, rfl, ?_, hb⟩
    unfold Cursor.byteAt at hb
    by_contra hlt
    rw [List.getElem?_eq_none (Nat.le_of_not_lt hlt)] at hb
    simp at hb
  · simp at h

theorem Cursor.read_none {c : Cursor} (h : c.read = none) : c.buf.length ≤ c.off := by
  unfold Cursor.read Cursor.byteAt at h
  by_contra hlt
  rw [List.getElem?_eq_getElem (Nat.lt_of_not_le hlt)] at h
  simp at h

theorem Cursor.read_isSome {c : Cursor} (h : c.off < c.buf.length) :
    ∃ b c1, c.read = some (b, c1) := by
  cases hr : c.read with
  | none => exact absurd (Cursor.read_none hr) (Nat.not_le_of_lt h)
  | some x => exact ⟨x.1, x.2, rfl⟩

theorem Cursor.readOr_frame (c : Cursor) (old : Nat) :
    (c.readOr old).2.buf = c.buf ∧ c.off ≤ (c.readOr old).2.off := by
  unfold Cursor.readOr
  split
  · rename_i b c1 h
    obtain ⟨h1, h2, -, -⟩ := Cursor.read_some h
    exact ⟨h1, by simp [h2]⟩
  · exact ⟨rfl, Nat.le_refl _⟩

theorem Cursor.readInt8_some {c c1 : Cursor} {x : Int} (h : c.readInt8 = some (x, c1)) :
    c1.buf = c.buf ∧ c1.off = c.off + 1 := by
  unfold Cursor.readInt8 at h
  split at h
  · rename_i b c2 hr
    simp only [Option.some.injEq, Prod.mk.injEq] at h
    obtain ⟨-, h2⟩ := h
    subst h2
    obtain ⟨h1, h2, -, -⟩ := Cursor.read_some hr
    exact ⟨h1, h2⟩
  · simp at h

theorem Cursor.readUInt32_some {c c1 : Cursor} {x : Nat} (h : c.readUInt32 = some (x, c1)) :
    c1.buf = c.buf ∧ c1.off = c.off + 4 := by
  unfold Cursor.readUInt32 at h
  split at h
  · simp only [Option.some.injEq, Prod.mk.injEq] at h
    obtain ⟨-, h2⟩ := h
    subst h2
    exact ⟨rfl, rfl⟩
  · simp at h

/-! ### The scan loop -/

theorem scanLoop_fuel (fuel : Nat) : ∀ (c : Cursor) (prefs : Nat) (seg : Option SegReg),
    c.buf.length - c.off < fuel → scanLoop fuel c prefs seg ≠ none := by
  induction fuel with
  | zero => intro c prefs seg h; exact absurd h (Nat.not_lt_zero _)
  | succ n ih =>
    intro c prefs seg h
    unfold scanLoop
    split
    · simp
    · rename_i b c1 hr
      obtain ⟨h1, h2, h3, -⟩ := Cursor.read_some hr
      obtain ⟨h4, h5⟩ := Cursor.readOr_frame c1 b
      simp only []
      split
      · apply ih
        rw [h4, h1]
        omega
      · simp

theorem scanLoop_truncated (fuel : Nat) : ∀ (c c2 : Cursor) (prefs : Nat) (seg : Option SegReg),
    scanLoop fuel c prefs seg = some (ScanExit.truncated c2) →
    c2.buf = c.buf ∧ c.off ≤ c2.off ∧ (c.off < c.buf.length → c.off + 1 ≤ c2.off) := by
  induction fuel with
  | zero => intro c c2 prefs seg h; simp [scanLoop] at h
  | succ n ih =>
    intro c c2 prefs seg h
    unfold scanLoop at h
    split at h
    · rename_i hr
      simp only [Option.some.injEq, ScanExit.truncated.injEq] at h
      subst h
      exact ⟨rfl, Nat.le_refl _, fun hlt => absurd (Cursor.read_none hr) (Nat.not_le_of_lt hlt)⟩
    · rename_i b c1 hr
      obtain ⟨h1, h2, h3, -⟩ := Cursor.read_some hr
      obtain ⟨h4, h5⟩ := Cursor.readOr_frame c1 b
      simp only [] at h
      split at h
      · obtain ⟨k1, k2, -⟩ := ih _ _ _ _ h
        exact ⟨by rw [k1, h4, h1], by omega, fun _ => by omega⟩
      · simp at h

theorem scanLoop_done (fuel : Nat) :
    ∀ (c c2 : Cursor) (prefs : Nat) (seg : Option SegReg) (byte p2 : Nat) (s2 : Option SegReg),
    scanLoop fuel c prefs seg = some (ScanExit.done c2 byte p2 s2) →
    c2.buf = c.buf ∧ c.off + 1 ≤ c2.off := by
  induction fuel with
  | zero => intro c c2 prefs seg byte p2 s2 h; simp [scanLoop] at h
  | succ n ih =>
    intro c c2 prefs seg byte p2 s2 h
    unfold scanLoop at h
    split at h
    · simp at h
    · rename_i b c1 hr
      obtain ⟨h1, h2, h3, -⟩ := Cursor.read_some hr
      obtain ⟨h4, h5⟩ := Cursor.readOr_frame c1 b
      simp only [] at h
      split at h
      · obtain ⟨k1, k2⟩ := ih _ _ _ _ _ _ _ h
        exact ⟨by rw [k1, h4, h1], by omega⟩
      · simp only [Option.some.injEq, ScanExit.done.injEq] at h
        obtain ⟨e1, -, -, -⟩ := h
        subst e1
        exact ⟨by rw [h4, h1], by omega⟩


theorem Cursor.read_eq_some_iff (c c1 : Cursor) (b : Nat) :
    c.read = some (b, c1) ↔ (c.byteAt c.off = some b ∧ c1 = ⟨c.buf, c.off + 1⟩) := by
  unfold Cursor.read
  split
  · rename_i b0 hb
    simp only [Option.some.injEq, Prod.mk.injEq, hb]
    constructor
    · rintro ⟨h1, h2⟩; exact ⟨h1, h2.symm⟩
    · rintro ⟨h1, h2⟩; exact ⟨h1, h2.symm⟩
  · rename_i hb
    simp [hb]

theorem Cursor.readInt8_eq_some_iff (c c1 : Cursor) (x : Int) :
    c.readInt8 = some (x, c1) ↔
      ((c.byteAt c.off).map int8 = some x ∧ c1 = ⟨c.buf, c.off + 1⟩) := by
  unfold Cursor.readInt8
  split
  · rename_i b c2 hr
    rw [Cursor.read_eq_some_iff] at hr
    obtain ⟨h1, h2⟩ := hr
    simp only [Option.some.injEq, Prod.mk.injEq, h1, Option.map_some', h2]
    constructor
    · rintro ⟨e1, e2⟩; exact ⟨e1, e2.symm⟩
    · rintro ⟨e1, e2⟩; exact ⟨e1, e2.symm⟩
  · rename_i hr
    constructor
    · intro h; simp at h
    · rintro ⟨e0, e2⟩
      cases hb : c.byteAt c.off with
      | none => rw [hb] at e0; simp at e0
      | some b1 => exact absurd ((Cursor.read_eq_some_iff c _ b1).2 ⟨hb, rfl⟩) (by rw [hr]; simp)

theorem Cursor.readUInt32_eq_some_iff (c c1 : Cursor) (x : Nat) :
    c.readUInt32 = some (x, c1) → c1 = ⟨c.buf, c.off + 4⟩ := by
  intro h
  unfold Cursor.readUInt32 at h
  split at h
  · simp only [Option.some.injEq, Prod.mk.injEq] at h
    exact h.2.symm
  · simp at h

theorem Cursor.readOr_buf (c : Cursor) (old : Nat) : (c.readOr old).2.buf = c.buf :=
  (Cursor.readOr_frame c old).1

theorem Cursor.readOr_cases (c : Cursor) (old : Nat) :
    (c.readOr old = (old, c) ∧ c.read = none) ∨
    (∃ b, c.readOr old = (b, ⟨c.buf, c.off + 1⟩) ∧ c.read = some (b, ⟨c.buf, c.off + 1⟩)) := by
  unfold Cursor.readOr
  cases hr : c.read with
  | none => exact Or.inl ⟨rfl, rfl⟩
  | some x =>
    obtain ⟨b, c1⟩ := x
    have h := (Cursor.read_eq_some_iff c c1 b).1 hr
    obtain ⟨-, h2⟩ := h
    subst h2
    exact Or.inr ⟨b, rfl, rfl⟩

theorem Cursor.le_readOr (c : Cursor) (old n : Nat) (h : n ≤ c.off) :
    n ≤ (c.readOr old).2.off := Nat.le_trans h (Cursor.readOr_frame c old).2

set_option maxHeartbeats 4000000 in
theorem Decoder.dispatch_frame (d : Decoder) (a u : Nat) :
    (d.dispatch a u).2._image = d._image ∧ (d.dispatch a u).2.base = d.base ∧
    (d.dispatch a u).2.curs.buf = d.curs.buf ∧ d.curs.off ≤ (d.dispatch a u).2.curs.off ∧
    (d.dispatch a u).1._size = (d.dispatch a u).2.size a ∧ (d.dispatch a u).1._addr = a ∧
    (d.dispatch a u).1._target = none := by
  unfold Decoder.dispatch
  rcases Cursor.readOr_cases d.curs (u % 256) with ⟨h, -⟩ | ⟨b, h, -⟩
  · rw [h]
    simp only []
    repeat' split
    all_goals try (rename_i hx; have hx2 := Cursor.readUInt32_eq_some_iff _ _ _ hx)
    all_goals simp_all [Cursor.read_eq_some_iff, Cursor.readInt8_eq_some_iff, Decoder.unknown, Decoder.make0, Decoder.make1, Decoder.make2, Decoder.make3, Inst.new, Decoder.size, Cursor.offset, Cursor.readOr_buf]
    all_goals first | omega | (apply Cursor.le_readOr; dsimp only; omega)
  · rw [h]
    simp only []
    repeat' split
    all_goals try (rename_i hx; have hx2 := Cursor.readUInt32_eq_some_iff _ _ _ hx)
    all_goals simp_all [Cursor.read_eq_some_iff, Cursor.readInt8_eq_some_iff, Decoder.unknown, Decoder.make0, Decoder.make1, Decoder.make2, Decoder.make3, Inst.new, Decoder.size, Cursor.offset, Cursor.readOr_buf]
    all_goals first | omega | (apply Cursor.le_readOr; dsimp only; omega)

/-! ### Segment lookup and `decode` -/

theorem Decoder.lookup_some {d d1 : Decoder} {a : Nat} (h : d.lookup a = some d1) :
    d1._image = d._image ∧ d1.base ≤ a ∧ a < d1.base + d1.curs.buf.length ∧
    ((d1 = d ∧ d.curs.size ≠ 0) ∨
      ∃ s, d._image.find? (fun s => s.contains a) = some s ∧ s.isExecutable = true ∧
        d1.curs = Cursor.ofBuffer s.buffer ∧ d1.base = s.baseAddress) := by
  unfold Decoder.lookup at h
  split at h
  · split at h
    · rename_i s hs
      split at h
      · simp at h
      · rename_i hx
        simp only [Option.some.injEq] at h
        subst h
        have hc := List.find?_some hs
        simp only [Segment.contains, Segment.size, Bool.and_eq_true, decide_eq_true_eq] at hc
        refine ⟨rfl, hc.1, ?_, Or.inr ⟨s, hs, by simpa using hx, rfl, rfl⟩⟩
        simpa [Cursor.ofBuffer] using hc.2
    · simp at h
  · rename_i hc
    simp only [Option.some.injEq] at h
    subst h
    simp only [Cursor.size, not_or, not_lt, ge_iff_le, not_le] at hc
    exact ⟨rfl, by omega, by omega, Or.inl ⟨rfl, by simpa [Cursor.size] using hc.1⟩⟩

theorem Decoder.decode_cases (d : Decoder) (a u : Nat) :
    (d.lookup a = none ∧ d.decode a u = (none, d)) ∨
    (∃ d1 i d2, d.lookup a = some d1 ∧ d.decode a u = (some i, d2) ∧
      d2._image = d1._image ∧ d2.base = d1.base ∧ d2.curs.buf = d1.curs.buf ∧
      a - d1.base + 1 ≤ d2.curs.off ∧ i._size = d2.size a ∧ i._addr = a ∧
      i._target = none) := by
  cases hl : d.lookup a with
  | none => exact Or.inl ⟨rfl, by simp [Decoder.decode, hl]⟩
  | some d1 =>
    right
    obtain ⟨-, hb, hlt, -⟩ := Decoder.lookup_some hl
    have hlt2 : a - d1.base < d1.curs.buf.length := by omega
    unfold Decoder.decode
    rw [hl]
    simp only []
    split
    · rename_i hs
      exact absurd hs (scanLoop_fuel _ _ _ _ (by simp only [Cursor.size, Cursor.move]; omega))
    · rename_i c hs
      obtain ⟨k1, -, k3⟩ := scanLoop_truncated _ _ _ _ _ hs
      exact ⟨d1, _, _, rfl, rfl, rfl, rfl, by simpa [Cursor.move] using k1,
        by simpa [Cursor.move] using k3 (by simpa [Cursor.move] using hlt2), rfl, rfl, rfl⟩
    · rename_i c byte p2 s2 hs
      obtain ⟨k1, k2⟩ := scanLoop_done _ _ _ _ _ _ _ _ hs
      obtain ⟨f1, f2, f3, f4, f5, f6, f7⟩ :=
        Decoder.dispatch_frame { d1 with curs := c } a u
      refine ⟨d1, _, _, rfl, rfl, f1, f2, ?_, ?_, f5, f6, f7⟩
      · rw [f3]; simpa [Cursor.move] using k1
      · simp only [Cursor.move] at k2
        simp only [] at f4
        omega

/-! ### Helper lemmas -/

theorem Decoder.lookup_of_find {d : Decoder} {a : Nat} {s : Segment}
    (hs : d._image.find? (fun s => s.contains a) = some s) (hx : s.isExecutable = true) :
    d.lookup a ≠ none := by
  unfold Decoder.lookup
  split
  · rw [hs]
    simp [hx]
  · simp

theorem Decoder.decode_idem (d : Decoder) (a u : Nat) :
    (d.decode a u).2.decode a u = d.decode a u := by
  rcases Decoder.decode_cases d a u with ⟨-, h⟩ | ⟨d1, i, d2, hl, h, e1, e2, e3, e4, -, -, -⟩
  · rw [h]
    exact h
  · obtain ⟨-, hb, hlt, -⟩ := Decoder.lookup_some hl
    rw [h]
    have hl2 : d2.lookup a = some d2 := by
      unfold Decoder.lookup
      rw [if_neg]
      simp only [Cursor.size, e3, e2, not_or, not_lt, ge_iff_le, not_le]
      omega
    have hd : d.decode a u = (some i, d2) := h
    unfold Decoder.decode at h ⊢
    rw [hl] at h
    rw [hl2]
    simp only [] at h ⊢
    have hc : d2.curs.move (a - d2.base) = d1.curs.move (a - d1.base) := by
      simp [Cursor.move, e2, e3]
    have hd2 : ∀ c : Cursor, ({ d2 with curs := c } : Decoder) = { d1 with curs := c } := by
      intro c
      cases d2; cases d1
      simp only [] at e1 e2
      simp [e1, e2]
    rw [hc, hd2]
    simp only [Cursor.size, Cursor.move] at h ⊢
    simp only [hd2]
    exact h


theorem CacheOk.decode {image : Image} {d : Decoder} (h : CacheOk image d) (a u : Nat) :
    CacheOk image (d.decode a u).2 := by
  obtain ⟨hi, hc⟩ := h
  rcases Decoder.decode_cases d a u with ⟨-, h⟩ | ⟨d1, i, d2, hl, h, e1, e2, e3, -, -, -, -⟩
  · rw [h]; exact ⟨hi, hc⟩
  · rw [h]
    obtain ⟨k1, -, -, k4⟩ := Decoder.lookup_some hl
    refine ⟨by simp only [e1, k1, hi], ?_⟩
    rcases k4 with ⟨rfl, -⟩ | ⟨s, hs, hx, hcu, hb⟩
    · rcases hc with hc | ⟨s, hs, hx, hb, hbuf⟩
      · left; simpa [Cursor.size, e3] using hc
      · right; exact ⟨s, hs, hx, by rw [e2, hb], by rw [e3, hbuf]⟩
    · right
      refine ⟨s, ?_, hx, by rw [e2, hb], by rw [e3, hcu]; rfl⟩
      rw [← hi]
      exact List.mem_of_find?_eq_some hs

theorem Reachable.cacheOk {image : Image} {d : Decoder} (h : Reachable image d) :
    CacheOk image d := by
  induction h with
  | init b => exact ⟨rfl, Or.inl rfl⟩
  | step a u _ ih => exact ih.decode a u


theorem Cursor.readOr_of_lt (c : Cursor) (old old2 : Nat) (h : c.off < c.buf.length) :
    c.readOr old = c.readOr old2 := by
  obtain ⟨b, c1, hr⟩ := Cursor.read_isSome h
  simp [Cursor.readOr, hr]

theorem Decoder.dispatch_uninit (d : Decoder) (a u u2 : Nat) (h : d.curs.off < d.curs.buf.length) :
    d.dispatch a u = d.dispatch a u2 := by
  unfold Decoder.dispatch
  rw [Cursor.readOr_of_lt d.curs (u % 256) (u2 % 256) h]

theorem Decoder.decode_uninit (d : Decoder) (a u u2 : Nat) (h : d.opcodeRead a = true) :
    d.decode a u = d.decode a u2 := by
  unfold Decoder.opcodeRead at h
  unfold Decoder.decode
  cases hl : d.lookup a with
  | none => rfl
  | some d1 =>
    rw [hl] at h
    simp only [Cursor.size, Cursor.move] at h ⊢
    cases hs : scanLoop (d1.curs.buf.length + 1) ⟨d1.curs.buf, a - d1.base⟩ 0 none with
    | none => rfl
    | some e =>
      cases e with
      | truncated c => rfl
      | done c byte p2 s2 =>
        rw [hs] at h
        simp only [decide_eq_true_eq] at h
        simp only []
        rw [Decoder.dispatch_uninit _ a u u2 h]


theorem modrm_reg_lt (m : Nat) : modrm_reg m < 8 :=
  Nat.lt_of_le_of_lt (Nat.mod_le _ _) (Nat.lt_succ_of_le Nat.and_le_right)

theorem modrm_rm_lt (m : Nat) : modrm_rm m < 8 :=
  Nat.lt_of_le_of_lt (Nat.mod_le _ _) (Nat.lt_succ_of_le Nat.and_le_right)

theorem reg32_lookup (v : Nat) (h : v < 8) : ∃ r, reg32[v]? = some r := by
  interval_cases v <;> exact ⟨_, rfl⟩

theorem Inst.target_fst (i : Inst) (dec : Decoder) (uninit : Nat) :
    (i.target dec uninit).1 = none := by
  unfold Inst.target
  split
  · rename_i h; exact h
  · split <;> rfl

/-! ### Forward progress and segment lookup -/

/-- C1 (counterexample): an address contained in an executable segment for which
`decode` returns no record.  In `overlapImage` two segments cover 0x1000; the
segment scan stops at the first one, which is not executable, and returns
`nullptr`. -/
theorem decode_overlap_none :
    (∃ s ∈ overlapImage, s.isExecutable = true ∧ s.contains 0x1000 = true) ∧
    ((Decoder.init overlapImage 0).decode 0x1000 0).1 = none := by
  decide

/-- C1 (amended): for every decoder state and every address `a` such that the
first segment of the image's list containing `a` is executable, `decode(a)`
returns a record whose size is at least 1, the minimum instruction size
`instSize()`, whatever indeterminate value the opcode variable holds. -/
theorem decode_size_ge_one (d : Decoder) (a uninit : Nat) (s : Segment)
    (hs : d._image.find? (fun s => s.contains a) = some s) (hx : s.isExecutable = true) :
    ∃ i, (d.decode a uninit).1 = some i ∧ Decoder.instSize ≤ i.size ∧ 1 ≤ i.size := by
  rcases Decoder.decode_cases d a uninit with ⟨h, -⟩ | ⟨d1, i, d2, hl, h, -, e2, -, e4, e5, -, -⟩
  · exact absurd h (Decoder.lookup_of_find hs hx)
  · refine ⟨i, by rw [h], ?_, ?_⟩ <;>
    · simp only [Inst.size, Decoder.instSize, e5, Decoder.size, Cursor.offset, e2]
      omega

/-- C1, instance: the one-byte executable segment `[0x50]` at 0x1000. -/
theorem decode_size_ge_one_witness :
    (single 0x1000 [0x50])._image.find? (fun s => s.contains 0x1000) = some ⟨0x1000, [0x50], true⟩ ∧
    ∃ i, ((single 0x1000 [0x50]).decode 0x1000 0x50).1 = some i ∧ Decoder.instSize ≤ i.size ∧
      1 ≤ i.size :=
  ⟨by decide, decode_size_ge_one _ _ _ ⟨0x1000, [0x50], true⟩ (by decide) rfl⟩

/-- C2: in every decoder state reachable from a freshly constructed decoder, if no
executable segment of the image contains `a` then `decode(a)` returns no
record. -/
theorem decode_none_outside_executable (image : Image) (d : Decoder) (a uninit : Nat)
    (hr : Reachable image d)
    (hno : ∀ s ∈ image, s.isExecutable = true → s.contains a = false) :
    (d.decode a uninit).1 = none := by
  obtain ⟨hi, hc⟩ := hr.cacheOk
  rcases Decoder.decode_cases d a uninit with ⟨-, h⟩ | ⟨d1, i, d2, hl, -, -, -, -, -, -, -, -⟩
  · rw [h]
  · exfalso
    obtain ⟨-, k2, k3, k4⟩ := Decoder.lookup_some hl
    rcases k4 with ⟨rfl, hne⟩ | ⟨s, hs, hx, -, -⟩
    · rcases hc with hc | ⟨s, hs, hx, hb, hbuf⟩
      · exact hne hc
      · have := hno s hs hx
        simp only [Segment.contains, Segment.size, ← hb, ← hbuf, Bool.and_eq_false_imp,
          decide_eq_true_eq, decide_eq_false_iff_not] at this
        exact this k2 k3
    · have hm : s ∈ image := by rw [← hi]; exact List.mem_of_find?_eq_some hs
      have hcont := List.find?_some hs
      rw [hno s hm hx] at hcont
      exact Bool.noConfusion hcont

/-- C2, instance: after a first `decode(0x2000)` in the code segment of
`mixedImage`, `decode(0x1000)` in its data segment returns no record. -/
theorem decode_none_outside_executable_witness :
    Reachable mixedImage ((Decoder.init mixedImage 0).decode 0x2000 0).2 ∧
    (∀ s ∈ mixedImage, s.isExecutable = true → s.contains 0x1000 = false) ∧
    ((((Decoder.init mixedImage 0).decode 0x2000 0).2).decode 0x1000 0).1 = none :=
  ⟨Reachable.step _ _ (Reachable.init 0), by decide,
    decode_none_outside_executable mixedImage _ 0x1000 0
      (Reachable.step _ _ (Reachable.init 0)) (by decide)⟩

/-! ### Repeatability -/

/-- C3: two successive calls `decode(0x1000)` on the same decoder over the one-byte
executable segment `[0x50]` need not agree.  The second read of the scan loop
fails, so does the unchecked `curs.read(opcode)`, and the `switch` runs on the
indeterminate content of `opcode`: with 0x50 there the record is a push of
register 0, with 0x00 there it is bound to the Unknown shape. -/
theorem decode_twice_differs :
    ((single 0x1000 [0x50]).decode 0x1000 0x50).1 =
      some { _addr := 0x1000, _size := 1, _inst := PUSH, args := [0], _target := none } ∧
    (((single 0x1000 [0x50]).decode 0x1000 0x50).2.decode 0x1000 0x00).1 =
      some { _addr := 0x1000, _size := 1, _inst := UNKNOWN, args := [], _target := none } := by
  decide

/-! ### The implemented encodings -/

/-- C4: the byte 0x50 at 0x1000, followed by two zero bytes, is not decoded as a
one-byte push.  The scan loop reads two bytes per round and the opcode is read
after them, so the `switch` sees the third byte: the record is bound to the
Unknown shape and has size 3. -/
theorem push_byte_not_decoded (uninit : Nat) :
    ((single 0x1000 [0x50, 0x00, 0x00]).decode 0x1000 uninit).1 =
      some { _addr := 0x1000, _size := 3, _inst := UNKNOWN, args := [], _target := none } := by
  rw [Decoder.decode_uninit _ _ uninit 0 (by decide)]
  decide

/-- C5: the bytes EB 05 at 0x2000, followed by a zero byte, are not decoded as a
short jump: the `switch` sees the third byte as the opcode and the record is
bound to the Unknown shape with size 3. -/
theorem short_jump_not_decoded (uninit : Nat) :
    ((single 0x2000 [0xEB, 0x05, 0x00]).decode 0x2000 uninit).1 =
      some { _addr := 0x2000, _size := 3, _inst := UNKNOWN, args := [], _target := none } := by
  rw [Decoder.decode_uninit _ _ uninit 0 (by decide)]
  decide

/-- C6: the bytes 89 C3 at 0x3000, followed by a zero byte, are not decoded as a
register-to-register move: the `switch` sees the third byte as the opcode and
the record is bound to the Unknown shape with size 3. -/
theorem move_not_decoded (uninit : Nat) :
    ((single 0x3000 [0x89, 0xC3, 0x00]).decode 0x3000 uninit).1 =
      some { _addr := 0x3000, _size := 3, _inst := UNKNOWN, args := [], _target := none } := by
  rw [Decoder.decode_uninit _ _ uninit 0 (by decide)]
  decide

/-- C7: the bytes 89 CB at 0x3000 (mod 0b11, reg 1, rm 3), followed by a zero byte,
do not give a move record: the `switch` sees the third byte as the opcode and
the record is bound to the Unknown shape, for which `readRegSet` and
`writeRegSet` applied to the empty set yield the empty set, not the sets
holding the source register 1 and the destination register 3. -/
theorem move_bytes_empty_regsets (platformNumber : Register → Nat) (uninit : Nat) :
    modrm_mod 0xCB = 0b11 ∧ modrm_reg 0xCB = 1 ∧ modrm_rm 0xCB = 3 ∧
    ((single 0x3000 [0x89, 0xCB, 0x00]).decode 0x3000 uninit).1 =
      some { _addr := 0x3000, _size := 3, _inst := UNKNOWN, args := [], _target := none } ∧
    Inst.readRegSet platformNumber
      { _addr := 0x3000, _size := 3, _inst := UNKNOWN, args := [], _target := none } [] =
      some [] ∧
    Inst.writeRegSet platformNumber
      { _addr := 0x3000, _size := 3, _inst := UNKNOWN, args := [], _target := none } [] =
      some [] := by
  rw [Decoder.decode_uninit _ _ uninit 0 (by decide)]
  exact ⟨by decide, by decide, by decide, by decide, rfl, rfl⟩

/-! ### Branch targets -/

/-- C8: for the short jump EB 05 that `decode(0x2000)` recognises in `jumpBytes`
(size 4, displacement 5), `target()` returns no record although
`decode(0x2000 + 4 + 5)` on the same decoder returns one: the guard
`if(_target == nullptr) return _target;` leaves `target()` before any
resolution. -/
theorem target_not_resolved :
    ((single 0x2000 jumpBytes).decode 0x2000 0).1 =
      some { _addr := 0x2000, _size := 4, _inst := JMP, args := [5], _target := none } ∧
    isControl JMP.kind = true ∧ isIndirect JMP.kind = false ∧
    (Inst.target { _addr := 0x2000, _size := 4, _inst := JMP, args := [5], _target := none }
      ((single 0x2000 jumpBytes).decode 0x2000 0).2 0).1 = none ∧
    ((((single 0x2000 jumpBytes).decode 0x2000 0).2).decode (0x2000 + 4 + 5) 0).1 =
      some { _addr := 0x2009, _size := 3, _inst := UNKNOWN, args := [], _target := none } := by
  decide

/-- C9: `target()` yields no target for every record whose classification does not
include control transfer and for every record marked indirect; the same holds
for the `Branch` record of `zygdis_decoder.cpp` when its kind is indirect. -/
theorem target_none (i : Inst) (dec : Decoder) (uninit : Nat) {ι σ : Type}
    (decode : Nat → σ → Option ι × σ) (b : zygdis.Branch ι) (st : σ) :
    ((isControl i.kind = false ∨ isIndirect i.kind = true) →
      (i.target dec uninit).1 = none) ∧
    (isIndirect b.k = true → (b.target decode st).1 = none) := by
  constructor
  · intro _
    exact Inst.target_fst i dec uninit
  · intro h
    unfold zygdis.Branch.target
    rw [if_pos h]

/-- C9, instance: a push record, and an indirect branch of the other decoder. -/
theorem target_none_witness :
    (isControl (Inst.new 0x1000 1 PUSH).kind = false ∨
      isIndirect (Inst.new 0x1000 1 PUSH).kind = true) ∧
    isIndirect (IS_CONTROL ||| IS_INDIRECT) = true ∧
    ((Inst.new 0x1000 1 PUSH).target (single 0x1000 [0x50]) 0).1 = none ∧
    ((⟨0x1000, 2, IS_CONTROL ||| IS_INDIRECT, 0, none⟩ : zygdis.Branch Nat).target
      (fun a (st : Unit) => (some a, st)) ()).1 = none :=
  ⟨Or.inl (by decide), by decide,
    (target_none (Inst.new 0x1000 1 PUSH) (single 0x1000 [0x50]) 0
      (fun a (st : Unit) => (some a, st)) ⟨0x1000, 2, IS_CONTROL ||| IS_INDIRECT, 0, none⟩ ()).1
      (Or.inl (by decide)),
    (target_none (Inst.new 0x1000 1 PUSH) (single 0x1000 [0x50]) 0
      (fun a (st : Unit) => (some a, st)) ⟨0x1000, 2, IS_CONTROL ||| IS_INDIRECT, 0, none⟩ ()).2
      (by decide)⟩

/-! ### Fallback to Unknown -/

/-- C10: the bytes FF 00 50 at 0x1000: the first byte that is not a legacy byte is
0xFF, which no dispatch rule lists, yet the record is not bound to the Unknown
shape.  The `switch` sees the third byte 0x50 as the opcode and the record is
a push of register 0 with size 3. -/
theorem unlisted_opcode_decoded_as_push (uninit : Nat) :
    ((single 0x1000 [0xFF, 0x00, 0x50]).decode 0x1000 uninit).1 =
      some { _addr := 0x1000, _size := 3, _inst := PUSH, args := [0], _target := none } := by
  rw [Decoder.decode_uninit _ _ uninit 0 (by decide)]
  decide

/-! ### Helper lemmas: shapes, cursor bounds, register sets, rendering -/

theorem Inst.catalogued_unknown (d : Decoder) (a s : Nat) : (d.unknown a s).Catalogued :=
  Or.inl ⟨rfl, rfl⟩

theorem Inst.catalogued_endbr (d : Decoder) (a : Nat) : (d.make0 a ENDBR32).Catalogued :=
  Or.inr (Or.inl ⟨rfl, rfl⟩)

theorem and7_mod_lt (b : Nat) : (b &&& 0x7) % 4294967296 < 8 :=
  Nat.lt_of_le_of_lt (Nat.mod_le _ _) (Nat.lt_succ_of_le Nat.and_le_right)

theorem Inst.catalogued_push (d : Decoder) (a b : Nat) :
    (d.make1 a PUSH (b &&& 0x7)).Catalogued :=
  Or.inr (Or.inr (Or.inl ⟨_, and7_mod_lt b, rfl, rfl⟩))

theorem Inst.catalogued_pop (d : Decoder) (a b : Nat) :
    (d.make1 a POP (b &&& 0x7)).Catalogued :=
  Or.inr (Or.inr (Or.inr (Or.inl ⟨_, and7_mod_lt b, rfl, rfl⟩)))

theorem Inst.catalogued_jmp (d : Decoder) (a x : Nat) : (d.make1 a JMP x).Catalogued :=
  Or.inr (Or.inr (Or.inr (Or.inr (Or.inl ⟨_, rfl, rfl⟩))))

theorem mod_lt_eight {v : Nat} (h : v < 8) : v % 4294967296 < 8 :=
  Nat.lt_of_le_of_lt (Nat.mod_le _ _) h

theorem Inst.catalogued_mov (d : Decoder) (a m : Nat) :
    (d.make2 a MOV32 (modrm_rm m) (modrm_reg m)).Catalogued :=
  Or.inr (Or.inr (Or.inr (Or.inr (Or.inr (Or.inl
    ⟨_, _, mod_lt_eight (modrm_rm_lt m), mod_lt_eight (modrm_reg_lt m), rfl, rfl⟩)))))

theorem Inst.catalogued_alu (d : Decoder) (a m x : Nat) :
    Inst.Catalogued
      { d.make2 a (Decoder.alu_imm (modrm_reg m)) x (modrm_rm m) with _instDangling := true } := by
  unfold Decoder.alu_imm
  split
  · exact Or.inr (Or.inr (Or.inr (Or.inr (Or.inr (Or.inr (Or.inl
      ⟨_, _, mod_lt_eight (modrm_rm_lt m), rfl, rfl⟩))))))
  · exact Or.inr (Or.inr (Or.inr (Or.inr (Or.inr (Or.inr (Or.inr (Or.inl
      ⟨_, _, mod_lt_eight (modrm_rm_lt m), rfl, rfl⟩)))))))

theorem Inst.catalogued_movi (d : Decoder) (a m x y : Nat) :
    (d.make3 a MOVI_DIS8 x y (modrm_rm m)).Catalogued :=
  Or.inr (Or.inr (Or.inr (Or.inr (Or.inr (Or.inr (Or.inr (Or.inr
    ⟨_, _, _, mod_lt_eight (modrm_rm_lt m), rfl, rfl⟩)))))))

theorem Decoder.dispatch_catalogued (d : Decoder) (a u : Nat) :
    (d.dispatch a u).1.Catalogued := by
  unfold Decoder.dispatch
  simp only []
  repeat' split
  all_goals dsimp only
  all_goals first
    | exact Inst.catalogued_unknown _ _ _
    | exact Inst.catalogued_endbr _ _
    | exact Inst.catalogued_push _ _ _
    | exact Inst.catalogued_pop _ _ _
    | exact Inst.catalogued_jmp _ _ _
    | exact Inst.catalogued_mov _ _ _
    | exact Inst.catalogued_alu _ _ _ _
    | exact Inst.catalogued_movi _ _ _ _ _

theorem Cursor.Within.read {c0 c c1 : Cursor} {b : Nat} (h : Cursor.Within c0 c)
    (hr : c.read = some (b, c1)) : Cursor.Within c0 c1 := by
  obtain ⟨h1, h2, h3, -⟩ := Cursor.read_some hr
  exact ⟨by rw [h1, h.1], by rw [h2]; rw [h.1] at h3; exact h3⟩

theorem Cursor.Within.readInt8 {c0 c c1 : Cursor} {x : Int} (h : Cursor.Within c0 c)
    (hr : c.readInt8 = some (x, c1)) : Cursor.Within c0 c1 := by
  unfold Cursor.readInt8 at hr
  split at hr
  · rename_i b c2 hb
    simp only [Option.some.injEq, Prod.mk.injEq] at hr
    obtain ⟨-, rfl⟩ := hr
    exact h.read hb
  · simp at hr

theorem Cursor.Within.readUInt32 {c0 c c1 : Cursor} {x : Nat} (h : Cursor.Within c0 c)
    (hr : c.readUInt32 = some (x, c1)) : Cursor.Within c0 c1 := by
  unfold Cursor.readUInt32 at hr
  split at hr
  · rename_i b0 b1 b2 b3 h0 h1 h2 h3
    simp only [Option.some.injEq, Prod.mk.injEq] at hr
    obtain ⟨-, rfl⟩ := hr
    refine ⟨h.1, ?_⟩
    have hlt : c.off + 3 < c.buf.length := by
      unfold Cursor.byteAt at h3
      by_contra hn
      rw [List.getElem?_eq_none (Nat.le_of_not_lt hn)] at h3
      simp at h3
    rw [h.1] at hlt
    exact hlt
  · simp at hr

theorem Cursor.Within.readOr {c0 c : Cursor} (h : Cursor.Within c0 c) (old : Nat) :
    Cursor.Within c0 (c.readOr old).2 := by
  unfold Cursor.readOr
  split
  · rename_i b c1 hr
    exact h.read hr
  · exact h

theorem Decoder.dispatch_within (d : Decoder) (a u : Nat) (h : d.curs.off ≤ d.curs.buf.length) :
    Cursor.Within d.curs (d.dispatch a u).2.curs := by
  have h0 : Cursor.Within d.curs d.curs := ⟨rfl, h⟩
  have h1 := h0.readOr (u % 256)
  unfold Decoder.dispatch
  simp only []
  repeat' split
  all_goals dsimp only
  all_goals first
    | exact h1
    | exact h1.readInt8 (by assumption)
    | exact h1.read (by assumption)
    | exact (h1.read (by assumption)).readOr _
    | exact (h1.read (by assumption)).readInt8 (by assumption)
    | exact ((h1.read (by assumption)).readInt8 (by assumption)).readUInt32 (by assumption)

theorem scanLoop_within (fuel : Nat) :
    ∀ (c0 c : Cursor) (prefs : Nat) (seg : Option SegReg) (e : ScanExit),
    Cursor.Within c0 c → scanLoop fuel c prefs seg = some e → Cursor.Within c0 e.curs := by
  induction fuel with
  | zero => intro c0 c prefs seg e _ h; simp [scanLoop] at h
  | succ n ih =>
    intro c0 c prefs seg e hw h
    unfold scanLoop at h
    split at h
    · simp only [Option.some.injEq] at h
      subst h
      exact hw
    · rename_i b c1 hr
      simp only [] at h
      split at h
      · exact ih _ _ _ _ _ ((hw.read hr).readOr b) h
      · simp only [Option.some.injEq] at h
        subst h
        exact (hw.read hr).readOr b

theorem Decoder.decode_some_inv {d d2 : Decoder} {a u : Nat} {i : Inst}
    (h : d.decode a u = (some i, d2)) :
    i.Catalogued ∧ d2.curs.off ≤ d2.curs.buf.length := by
  unfold Decoder.decode at h
  cases hl : d.lookup a with
  | none => rw [hl] at h; simp at h
  | some d1 =>
    rw [hl] at h
    obtain ⟨-, hb, hlt, -⟩ := Decoder.lookup_some hl
    have hw : Cursor.Within (d1.curs.move (a - d1.base)) (d1.curs.move (a - d1.base)) :=
      ⟨rfl, by simp only [Cursor.move]; omega⟩
    simp only [] at h
    cases hs : scanLoop ((d1.curs.move (a - d1.base)).size + 1) (d1.curs.move (a - d1.base)) 0
        none with
    | none => rw [hs] at h; simp at h
    | some e =>
      rw [hs] at h
      have hw2 := scanLoop_within _ _ _ _ _ _ hw hs
      cases e with
      | truncated c =>
        simp only [Prod.mk.injEq, Option.some.injEq] at h
        obtain ⟨rfl, rfl⟩ := h
        exact ⟨Inst.catalogued_unknown _ _ _, by
          have := hw2.2
          simp only [ScanExit.curs, Cursor.move] at this hw2 ⊢
          rw [hw2.1]
          exact this⟩
      | done c byte p2 s2 =>
        simp only [Prod.mk.injEq, Option.some.injEq] at h
        obtain ⟨rfl, rfl⟩ := h
        refine ⟨Decoder.dispatch_catalogued _ _ _, ?_⟩
        simp only [ScanExit.curs, Cursor.move] at hw2
        have hd := Decoder.dispatch_within { d1 with curs := c } a u (by
          simp only []
          rw [hw2.1]
          exact hw2.2)
        simp only [Cursor.Within] at hd
        rw [hd.1]
        exact hd.2

theorem Inst.Catalogued.regsets {i : Inst} (hc : i.Catalogued) (hd : i._instDangling = false)
    (platformNumber : Register → Nat) (S : RegSet) :
    i.readRegSet platformNumber S = some (S ++ i.regIndices platformNumber .R32_R) ∧
    i.writeRegSet platformNumber S = some (S ++ i.regIndices platformNumber .R32_W) := by
  have r0 : List.range 0 = [] := rfl
  have r1 : List.range 1 = [0] := rfl
  have r2 : List.range 2 = [0, 1] := rfl
  have r3 : List.range 3 = [0, 1, 2] := rfl
  rcases hc with ⟨h1, h2⟩ | ⟨h1, h2⟩ | ⟨r, hr, h1, h2⟩ | ⟨r, hr, h1, h2⟩ | ⟨x, h1, h2⟩ |
    ⟨rm, reg, hrm, hreg, h1, h2⟩ | ⟨x, rm, hrm, h1, h2⟩ | ⟨x, rm, hrm, h1, h2⟩ |
    ⟨x, y, rm, hrm, h1, h2⟩
  · simp [Inst.readRegSet, Inst.writeRegSet, hd, Inst.regIndices, Inst.operandsOfKind, h1, h2,
      UNKNOWN, r0]
  · simp [Inst.readRegSet, Inst.writeRegSet, hd, Inst.regIndices, Inst.operandsOfKind, h1, h2,
      ENDBR32, r0]
  · obtain ⟨rr, hrr⟩ := reg32_lookup r hr
    simp [Inst.readRegSet, Inst.writeRegSet, hd, Inst.regIndices, Inst.operandsOfKind, h1, h2,
      PUSH, r1, Inst.readStep, Inst.writeStep, hrr]
  · obtain ⟨rr, hrr⟩ := reg32_lookup r hr
    simp [Inst.readRegSet, Inst.writeRegSet, hd, Inst.regIndices, Inst.operandsOfKind, h1, h2,
      POP, r1, Inst.readStep, Inst.writeStep, hrr]
  · simp [Inst.readRegSet, Inst.writeRegSet, hd, Inst.regIndices, Inst.operandsOfKind, h1, h2,
      JMP, r1, Inst.readStep, Inst.writeStep]
  · obtain ⟨rr, hrr⟩ := reg32_lookup rm hrm
    obtain ⟨rg, hrg⟩ := reg32_lookup reg hreg
    simp [Inst.readRegSet, Inst.writeRegSet, hd, Inst.regIndices, Inst.operandsOfKind, h1, h2,
      MOV32, r2, Inst.readStep, Inst.writeStep, hrr, hrg]
  · obtain ⟨rr, hrr⟩ := reg32_lookup rm hrm
    simp [Inst.readRegSet, Inst.writeRegSet, hd, Inst.regIndices, Inst.operandsOfKind, h1, h2,
      SUB32I, r2, Inst.readStep, Inst.writeStep, hrr]
  · simp [Inst.readRegSet, Inst.writeRegSet, hd, Inst.regIndices, Inst.operandsOfKind, h1, h2,
      UNKNOWN, r0]
  · obtain ⟨rr, hrr⟩ := reg32_lookup rm hrm
    simp [Inst.readRegSet, Inst.writeRegSet, hd, Inst.regIndices, Inst.operandsOfKind, h1, h2,
      MOVI_DIS8, r3, Inst.readStep, Inst.writeStep, hrr]

theorem Inst.targetWith_of_null {σ : Type} (resolve : Nat → σ → Option Inst × σ) (i : Inst)
    (st : σ) (h : i._target = none) : i.targetWith resolve st = (none, i, st) := by
  unfold Inst.targetWith
  rw [if_pos h, h]

theorem Inst.target_eq_targetWith (i : Inst) (dec : Decoder) (u : Nat) :
    i.target dec u = i.targetWith (fun a d => d.decode a u) dec := rfl

/-! ### Size of a record -/

/-- C11: whenever `decode(a)` returns a record, its size equals the cursor offset
after the call minus `a - base`, that is the number of bytes the cursor has
consumed since the offset `a - base` it was moved to, and it is at least 1. -/
theorem decode_size_consumed (d d2 : Decoder) (a uninit : Nat) (i : Inst)
    (h : d.decode a uninit = (some i, d2)) :
    i.size = d2.curs.offset - (a - d2.base) ∧ d2.base ≤ a ∧
    (a - d2.base) + i.size = d2.curs.offset ∧ 1 ≤ i.size := by
  rcases Decoder.decode_cases d a uninit with ⟨-, h0⟩ | ⟨d1, j, d3, hl, h1, -, e2, -, e4, e5, -, -⟩
  · rw [h0] at h; simp at h
  · rw [h1] at h
    simp only [Prod.mk.injEq, Option.some.injEq] at h
    obtain ⟨rfl, rfl⟩ := h
    obtain ⟨-, hb, -, -⟩ := Decoder.lookup_some hl
    have hs : j._size = d3.curs.off - (a - d1.base) := by
      rw [e5]
      simp only [Decoder.size, Cursor.offset, e2]
    simp only [Inst.size, Cursor.offset, e2, hs]
    refine ⟨trivial, hb, ?_, ?_⟩
    · omega
    · omega

/-- C11, instance: `decode(0x2002)` in `jumpBytes` moves the cursor from offset 2
to offset 6 and returns a record of size 4. -/
theorem decode_size_consumed_witness :
    (single 0x2000 jumpBytes).decode 0x2002 0 =
      (some { _addr := 0x2002, _size := 4, _inst := UNKNOWN, args := [], _target := none },
        ⟨[⟨0x2000, jumpBytes, true⟩], 0x2000, ⟨jumpBytes, 6⟩⟩) ∧
    (4 = 6 - (0x2002 - 0x2000) ∧ 0x2000 ≤ 0x2002 ∧ (0x2002 - 0x2000) + 4 = 6 ∧ 1 ≤ 4) :=
  ⟨by decide, decode_size_consumed (single 0x2000 jumpBytes)
    ⟨[⟨0x2000, jumpBytes, true⟩], 0x2000, ⟨jumpBytes, 6⟩⟩ 0x2002 0
    { _addr := 0x2002, _size := 4, _inst := UNKNOWN, args := [], _target := none } (by decide)⟩

/-! ### Truncated input -/

/-- C12: a failed cursor read that does not lead to the Unknown shape.  On the
one-byte executable segment `[0x50]` the scan loop ends with the cursor at the
end of the buffer, the read of the opcode fails, and with 0x50 as the
indeterminate content of `opcode` the record returned is a push. -/
theorem failed_read_gives_push :
    scanLoop 2 ⟨[0x50], 0⟩ 0 none = some (ScanExit.done ⟨[0x50], 1⟩ 0x50 0 none) ∧
    Cursor.read ⟨[0x50], 1⟩ = none ∧
    ((single 0x1000 [0x50]).decode 0x1000 0x50).1 =
      some { _addr := 0x1000, _size := 1, _inst := PUSH, args := [0], _target := none } := by
  decide

/-! ### Legacy bytes -/

/-- C13: putting the legacy byte 0xF0 in front of the bytes 50 00 50, whose first
byte is not a legacy byte, changes the shape: alone they give a push record of
size 3 (the `switch` sees the third byte), behind 0xF0 they give a record bound
to the Unknown shape of size 4 (0xF0 is consumed by the tested read, 0x50 ends
the loop, 0x00 is dispatched). -/
theorem legacy_byte_not_transparent (uninit : Nat) :
    legacyByte 0xF0 0 none ≠ none ∧ legacyByte 0x50 0 none = none ∧
    ((single 0x1000 [0x50, 0x00, 0x50]).decode 0x1000 uninit).1 =
      some { _addr := 0x1000, _size := 3, _inst := PUSH, args := [0], _target := none } ∧
    ((single 0x1000 ([0xF0] ++ [0x50, 0x00, 0x50])).decode 0x1000 uninit).1 =
      some { _addr := 0x1000, _size := 4, _inst := UNKNOWN, args := [], _target := none } := by
  rw [Decoder.decode_uninit _ _ uninit 0 (by decide), Decoder.decode_uninit _ _ uninit 0 (by decide)]
  decide

/-! ### Encodings with ModR/M -/

/-- C14: the bytes 83 E8 10 at 0x1000 (mod 0b11, reg 5) are not decoded as a
subtract: the `switch` sees the third byte 0x10 as the opcode, its ModR/M read
fails and the record is bound to the Unknown shape. -/
theorem sub_immediate_not_decoded (uninit : Nat) :
    modrm_mod 0xE8 = 0b11 ∧ modrm_reg 0xE8 = 5 ∧
    ((single 0x1000 [0x83, 0xE8, 0x10]).decode 0x1000 uninit).1 =
      some { _addr := 0x1000, _size := 3, _inst := UNKNOWN, args := [], _target := none } := by
  rw [Decoder.decode_uninit _ _ uninit 0 (by decide)]
  decide

/-- C15: the bytes C7 45 FC 01 00 00 00 at 0x1000 are not decoded as a store of an
immediate: the `switch` sees the third byte 0xFC as the opcode and the record
is bound to the Unknown shape with size 4. -/
theorem store_immediate_not_decoded (uninit : Nat) :
    ((single 0x1000 [0xC7, 0x45, 0xFC, 0x01, 0x00, 0x00, 0x00]).decode 0x1000 uninit).1 =
      some { _addr := 0x1000, _size := 4, _inst := UNKNOWN, args := [], _target := none } := by
  rw [Decoder.decode_uninit _ _ uninit 0 (by decide)]
  decide

/-- C16: the bytes 0F 38 50 and 0F 3A 50 at 0x1000 are decoded as a push of
register 0 with size 3, not as a record bound to the Unknown shape: the
`switch` sees the third byte as the opcode.  The escape is recognised only when
0x0F is the third byte, as in 90 90 0F 38 50. -/
theorem three_byte_escape_decoded_as_push (uninit : Nat) :
    ((single 0x1000 [0x0F, 0x38, 0x50]).decode 0x1000 uninit).1 =
      some { _addr := 0x1000, _size := 3, _inst := PUSH, args := [0], _target := none } ∧
    ((single 0x1000 [0x0F, 0x3A, 0x50]).decode 0x1000 uninit).1 =
      some { _addr := 0x1000, _size := 3, _inst := PUSH, args := [0], _target := none } ∧
    ((single 0x1000 [0x90, 0x90, 0x0F, 0x38, 0x50]).decode 0x1000 uninit).1 =
      some { _addr := 0x1000, _size := 4, _inst := UNKNOWN, args := [], _target := none } := by
  rw [Decoder.decode_uninit _ _ uninit 0 (by decide), Decoder.decode_uninit _ _ uninit 0 (by decide),
    Decoder.decode_uninit _ _ uninit 0 (by decide)]
  decide

/-! ### Next address -/

/-- C17 (counterexample): in the one-byte executable segment `[0x90]` at 0x1000,
`decode(0x1000)` returns a record of size 1, and 0x1000 + 1 lies in no segment:
`decode` there returns no record, on the same decoder and on a fresh one. -/
theorem next_address_not_valid :
    (∃ s ∈ (single 0x1000 [0x90])._image, s.isExecutable = true ∧ s.contains 0x1000 = true) ∧
    ((single 0x1000 [0x90]).decode 0x1000 0).1 =
      some { _addr := 0x1000, _size := 1, _inst := UNKNOWN, args := [], _target := none } ∧
    (∀ s ∈ (single 0x1000 [0x90])._image, s.contains (0x1000 + 1) = false) ∧
    ((((single 0x1000 [0x90]).decode 0x1000 0).2).decode (0x1000 + 1) 0).1 = none ∧
    ((single 0x1000 [0x90]).decode (0x1000 + 1) 0).1 = none := by
  decide

/-- C17 (amended): in every reachable decoder state, when `decode(a)` returns a
record of size `n`, `a` lies in an executable segment `s` of the image and
`a + n` does not pass the end address of `s`; when `a + n` is below that end
address, `decode(a + n)` on the same decoder again returns a record. -/
theorem next_address_bound (image : Image) (d d2 : Decoder) (a uninit : Nat) (i : Inst)
    (hr : Reachable image d) (h : d.decode a uninit = (some i, d2)) :
    ∃ s ∈ image, s.isExecutable = true ∧ s.contains a = true ∧
      a + i.size ≤ s.baseAddress + s.size ∧
      (a + i.size < s.baseAddress + s.size →
        ∀ u2, ∃ j, (d2.decode (a + i.size) u2).1 = some j) := by
  have hr2 : Reachable image (d.decode a uninit).2 := Reachable.step a uninit hr
  rw [h] at hr2
  obtain ⟨-, hc⟩ := hr2.cacheOk
  obtain ⟨-, hoff⟩ := Decoder.decode_some_inv h
  rcases Decoder.decode_cases d a uninit with ⟨-, h0⟩ | ⟨d1, j, d3, hl, h1, -, e2, e3, e4, e5, -, -⟩
  · rw [h0] at h; simp at h
  · rw [h1] at h
    simp only [Prod.mk.injEq, Option.some.injEq] at h
    obtain ⟨rfl, rfl⟩ := h
    obtain ⟨-, hb, hlt, -⟩ := Decoder.lookup_some hl
    have hs : j._size = d3.curs.off - (a - d1.base) := by
      rw [e5]
      simp only [Decoder.size, Cursor.offset, e2]
    rcases hc with hc | ⟨s, hs1, hx, hbase, hbuf⟩
    · simp only [Cursor.size, e3] at hc
      omega
    · refine ⟨s, hs1, hx, ?_, ?_, ?_⟩
      · simp only [Segment.contains, Segment.size, Bool.and_eq_true, decide_eq_true_eq, ← hbase,
          ← hbuf, e2, e3]
        exact ⟨hb, hlt⟩
      · simp only [Inst.size, Segment.size, ← hbase, ← hbuf, e2, hs]
        omega
      · intro hlt2 u2
        rcases Decoder.decode_cases d3 (a + j.size) u2 with ⟨hl2, -⟩ | ⟨_, k, _, -, h2, -⟩
        · exfalso
          unfold Decoder.lookup at hl2
          rw [if_neg] at hl2
          · simp at hl2
          · simp only [Segment.size, ← hbase, ← hbuf] at hlt2
            simp only [Cursor.size, not_or, not_lt, ge_iff_le, not_le]
            refine ⟨?_, ?_, hlt2⟩
            · omega
            · rw [e2]; omega
        · exact ⟨k, by rw [h2]⟩

/-- C17, instance: after the jump of size 4 at 0x2000 in `jumpBytes`, the address
0x2004 is still inside the segment. -/
theorem next_address_bound_witness :
    Reachable [⟨0x2000, jumpBytes, true⟩] (single 0x2000 jumpBytes) ∧
    (single 0x2000 jumpBytes).decode 0x2000 0 =
      (some { _addr := 0x2000, _size := 4, _inst := JMP, args := [5], _target := none },
        ⟨[⟨0x2000, jumpBytes, true⟩], 0x2000, ⟨jumpBytes, 4⟩⟩) ∧
    ∃ s ∈ [(⟨0x2000, jumpBytes, true⟩ : Segment)], s.isExecutable = true ∧
      s.contains 0x2000 = true ∧ 0x2000 + 4 ≤ s.baseAddress + s.size ∧
      (0x2000 + 4 < s.baseAddress + s.size →
        ∀ u2, ∃ j, (Decoder.decode ⟨[⟨0x2000, jumpBytes, true⟩], 0x2000, ⟨jumpBytes, 4⟩⟩
          (0x2000 + 4) u2).1 = some j) :=
  ⟨Reachable.init 0, by decide,
    next_address_bound [⟨0x2000, jumpBytes, true⟩] (single 0x2000 jumpBytes)
      ⟨[⟨0x2000, jumpBytes, true⟩], 0x2000, ⟨jumpBytes, 4⟩⟩ 0x2000 0
      { _addr := 0x2000, _size := 4, _inst := JMP, args := [5], _target := none }
      (Reachable.init 0) (by decide)⟩

/-! ### Register sets -/

/-- C18: on the record `decode` returns for 83 E8 10 read as opcode, ModR/M and
immediate (behind two padding bytes), `readRegSet` and `writeRegSet` are
undefined for every set `S`: the record keeps a reference to the temporary
returned by `alu_imm`, and the loops read the operand count and the operand
kinds through it once the temporary is gone. -/
theorem regsets_undefined_after_alu (platformNumber : Register → Nat) (S : RegSet)
    (uninit : Nat) :
    modrm_mod 0xE8 = 0b11 ∧ modrm_reg 0xE8 = 5 ∧ modrm_rm 0xE8 = 0 ∧
    ((single 0x1000 [0x90, 0x90, 0x83, 0xE8, 0x10]).decode 0x1000 uninit).1 =
      some { _addr := 0x1000, _size := 5, _inst := Decoder.alu_imm 5, args := [0x10, 0],
             _target := none, _instDangling := true } ∧
    Inst.readRegSet platformNumber
      { _addr := 0x1000, _size := 5, _inst := Decoder.alu_imm 5, args := [0x10, 0],
        _target := none, _instDangling := true } S = none ∧
    Inst.writeRegSet platformNumber
      { _addr := 0x1000, _size := 5, _inst := Decoder.alu_imm 5, args := [0x10, 0],
        _target := none, _instDangling := true } S = none := by
  rw [Decoder.decode_uninit _ _ uninit 0 (by decide)]
  exact ⟨by decide, by decide, by decide, by decide, rfl, rfl⟩

/-! ### Rendering -/

/-- C19: the bytes 89 C3 at 0x3000, followed by a zero byte, do not render as
"mov EAX, EBX": the `switch` sees the third byte as the opcode, the record is
bound to the Unknown shape and `dump` writes "unknown". -/
theorem move_bytes_render_unknown (hex showAddr : Nat → String) (uninit : Nat) :
    ((single 0x3000 [0x89, 0xC3, 0x00]).decode 0x3000 uninit).1 =
      some { _addr := 0x3000, _size := 3, _inst := UNKNOWN, args := [], _target := none } ∧
    Inst.dump hex showAddr
      { _addr := 0x3000, _size := 3, _inst := UNKNOWN, args := [], _target := none } =
      some "unknown" ∧
    "unknown" ≠ "mov EAX, EBX" := by
  rw [Decoder.decode_uninit _ _ uninit 0 (by decide)]
  exact ⟨by decide, rfl, by decide⟩

/-! ### Memo of the branch target -/

/-- C20: for every record `decode` returns, two successive calls of `target()`
return the same value, the second call leaves the record and the decoder as
the first call left them, and a call returns without consulting the decoder:
its outcome is the same whatever function stands for `_dec.decode`. -/
theorem target_memoized (d d2 : Decoder) (a uninit : Nat) (i : Inst)
    (h : d.decode a uninit = (some i, d2)) (dec : Decoder) (u1 u2 : Nat) :
    ((i.target dec u1).2.1.target (i.target dec u1).2.2 u2).1 = (i.target dec u1).1 ∧
    ((i.target dec u1).2.1.target (i.target dec u1).2.2 u2).2 = (i.target dec u1).2 ∧
    (∀ (σ : Type) (resolve : Nat → σ → Option Inst × σ) (st : σ),
      i.targetWith resolve st = (none, i, st)) ∧
    i.target dec u1 = i.targetWith (fun x y => y.decode x u1) dec := by
  have hn : i._target = none := by
    rcases Decoder.decode_cases d a uninit with ⟨-, h0⟩ | ⟨_, j, _, -, h1, -, -, -, -, -, -, h7⟩
    · rw [h0] at h; simp at h
    · rw [h1] at h
      simp only [Prod.mk.injEq, Option.some.injEq] at h
      rw [← h.1]
      exact h7
  have ht : ∀ u, i.target dec u = (none, i, dec) := fun u => by
    rw [Inst.target_eq_targetWith]
    exact Inst.targetWith_of_null _ i dec hn
  refine ⟨?_, ?_, fun σ resolve st => Inst.targetWith_of_null resolve i st hn, rfl⟩
  · rw [ht u1]
    simp only []
    rw [ht u2]
  · rw [ht u1]
    simp only []
    rw [ht u2]

/-- C20, instance: the jump record at 0x2000 in `jumpBytes`. -/
theorem target_memoized_witness :
    (single 0x2000 jumpBytes).decode 0x2000 0 =
      (some { _addr := 0x2000, _size := 4, _inst := JMP, args := [5], _target := none },
        ⟨[⟨0x2000, jumpBytes, true⟩], 0x2000, ⟨jumpBytes, 4⟩⟩) ∧
    Inst.target { _addr := 0x2000, _size := 4, _inst := JMP, args := [5], _target := none }
      ⟨[⟨0x2000, jumpBytes, true⟩], 0x2000, ⟨jumpBytes, 4⟩⟩ 0 =
      (none, { _addr := 0x2000, _size := 4, _inst := JMP, args := [5], _target := none },
        ⟨[⟨0x2000, jumpBytes, true⟩], 0x2000, ⟨jumpBytes, 4⟩⟩) ∧
    (∀ (σ : Type) (resolve : Nat → σ → Option Inst × σ) (st : σ),
      Inst.targetWith resolve
        { _addr := 0x2000, _size := 4, _inst := JMP, args := [5], _target := none } st =
        (none, { _addr := 0x2000, _size := 4, _inst := JMP, args := [5], _target := none }, st)) :=
  ⟨by decide, by decide,
    (target_memoized (single 0x2000 jumpBytes)
      ⟨[⟨0x2000, jumpBytes, true⟩], 0x2000, ⟨jumpBytes, 4⟩⟩ 0x2000 0
      { _addr := 0x2000, _size := 4, _inst := JMP, args := [5], _target := none } (by decide)
      (single 0x2000 jumpBytes) 0 0).2.2.1⟩

/-! ### Helper lemmas: disjoint images, fresh decoders -/

theorem Image.Disjoint.find {image : Image} (hd : image.Disjoint) {s : Segment} {a : Nat}
    (hs : s ∈ image) (hc : s.contains a = true) :
    image.find? (fun s => s.contains a) = some s := by
  induction image with
  | nil => simp at hs
  | cons x xs ih =>
    unfold Image.Disjoint at hd
    rw [List.pairwise_cons] at hd
    obtain ⟨h1, h2⟩ := hd
    rw [List.find?_cons]
    rcases List.mem_cons.1 hs with rfl | hmem
    · simp [hc]
    · cases hx : x.contains a with
      | true => exact absurd ⟨hx, hc⟩ (h1 s hmem a)
      | false => exact ih h2 hmem

theorem Decoder.decode_congr {d e d1 e1 : Decoder} {a : Nat} (u : Nat)
    (hl : d.lookup a = some d1) (he : e.lookup a = some e1)
    (h1 : d1._image = e1._image) (h2 : d1.base = e1.base) (h3 : d1.curs.buf = e1.curs.buf) :
    d.decode a u = e.decode a u := by
  unfold Decoder.decode
  rw [hl, he]
  cases d1 with
  | mk i1 b1 c1 =>
    cases e1 with
    | mk i2 b2 c2 =>
      cases c1 with
      | mk buf1 off1 =>
        cases c2 with
        | mk buf2 off2 =>
          simp only [] at h1 h2 h3
          subst h1 h2 h3
          rfl

theorem mixedImage_disjoint : mixedImage.Disjoint := by
  unfold Image.Disjoint mixedImage
  simp only [List.pairwise_cons, List.mem_singleton, forall_eq, List.not_mem_nil,
    List.Pairwise.nil, and_true, implies_true, Segment.contains, Segment.size,
    List.length_cons, List.length_nil, Bool.and_eq_true, decide_eq_true_eq]
  constructor
  · intro a
    omega
  · intro _ h
    exact h.elim

theorem Decoder.decode_fresh (image : Image) (d : Decoder) (a uninit b : Nat)
    (hr : Reachable image d) (hd : image.Disjoint) :
    (d.decode a uninit).1 = ((Decoder.init image b).decode a uninit).1 := by
  obtain ⟨hi, hc⟩ := hr.cacheOk
  have hfresh : (Decoder.init image b).lookup a =
      match image.find? (fun s => s.contains a) with
      | some s =>
        if !s.isExecutable then none
        else some { Decoder.init image b with
          curs := Cursor.ofBuffer s.buffer, base := s.baseAddress }
      | none => none := by
    unfold Decoder.lookup
    rw [if_pos]
    · rfl
    · exact Or.inl rfl
  cases hl : d.lookup a with
  | none =>
    have hl0 := hl
    unfold Decoder.lookup at hl
    split at hl
    · rw [hi] at hl
      have hf : (Decoder.init image b).lookup a = none := by
        rw [hfresh]
        split at hl
        · rename_i s hs
          split at hl
          · rename_i hx
            simp only [hx, if_true]
          · simp at hl
        · rename_i hs
          first
            | rw [hs]
            | rfl
      simp [Decoder.decode, hl0, hf]
    · simp at hl
  | some d1 =>
    obtain ⟨k1, k2, k3, k4⟩ := Decoder.lookup_some hl
    have hfind : ∃ s, image.find? (fun s => s.contains a) = some s ∧ s.isExecutable = true ∧
        d1.base = s.baseAddress ∧ d1.curs.buf = s.buffer := by
      rcases k4 with ⟨rfl, hne⟩ | ⟨s, hs, hx, hcu, hb⟩
      · rcases hc with hc | ⟨s, hs, hx, hb, hbuf⟩
        · exact absurd hc hne
        · refine ⟨s, hd.find hs ?_, hx, hb, hbuf⟩
          simp only [Segment.contains, Segment.size, Bool.and_eq_true, decide_eq_true_eq, ← hb,
            ← hbuf]
          exact ⟨k2, k3⟩
      · exact ⟨s, by rw [← hi]; exact hs, hx, hb, by rw [hcu]; rfl⟩
    obtain ⟨s, hs, hx, hb, hbuf⟩ := hfind
    have hf : (Decoder.init image b).lookup a =
        some { Decoder.init image b with
          curs := Cursor.ofBuffer s.buffer, base := s.baseAddress } := by
      rw [hfresh, hs]
      simp [hx]
    rw [Decoder.decode_congr uninit hl hf (by rw [k1, hi]; rfl) hb (by rw [hbuf]; rfl)]

/-! ### The segment cache -/

/-- C21: in every decoder state reachable from a freshly constructed decoder the
cache is empty or holds the base address and the buffer of an executable
segment of the image; and after any `decode(a)` that returns a record, the
cached range `[base, base + buffer size)` contains `a`. -/
theorem cache_invariant (image : Image) (d : Decoder) (hr : Reachable image d) :
    (d.curs.size = 0 ∨
      ∃ s ∈ image, s.isExecutable = true ∧ d.base = s.baseAddress ∧ d.curs.buf = s.buffer) ∧
    ∀ (a uninit : Nat) (i : Inst) (d2 : Decoder), d.decode a uninit = (some i, d2) →
      d2.base ≤ a ∧ a < d2.base + d2.curs.size := by
  refine ⟨hr.cacheOk.2, ?_⟩
  intro a uninit i d2 h
  rcases Decoder.decode_cases d a uninit with ⟨-, h0⟩ | ⟨d1, j, d3, hl, h1, -, e2, e3, -, -, -, -⟩
  · rw [h0] at h; simp at h
  · rw [h1] at h
    simp only [Prod.mk.injEq, Option.some.injEq] at h
    obtain ⟨-, rfl⟩ := h
    obtain ⟨-, hb, hlt, -⟩ := Decoder.lookup_some hl
    simp only [Cursor.size, e2, e3]
    exact ⟨hb, hlt⟩

/-- C21, instance: the state reached by `decode(0x2001)` on `mixedImage`. -/
theorem cache_invariant_witness :
    Reachable mixedImage ((Decoder.init mixedImage 0).decode 0x2001 0).2 ∧
    ((((Decoder.init mixedImage 0).decode 0x2001 0).2.curs.size = 0 ∨
      ∃ s ∈ mixedImage, s.isExecutable = true ∧
        ((Decoder.init mixedImage 0).decode 0x2001 0).2.base = s.baseAddress ∧
        ((Decoder.init mixedImage 0).decode 0x2001 0).2.curs.buf = s.buffer) ∧
    ∀ (a uninit : Nat) (i : Inst) (d2 : Decoder),
      ((Decoder.init mixedImage 0).decode 0x2001 0).2.decode a uninit = (some i, d2) →
      d2.base ≤ a ∧ a < d2.base + d2.curs.size) :=
  ⟨Reachable.step _ _ (Reachable.init 0),
    cache_invariant mixedImage _ (Reachable.step _ _ (Reachable.init 0))⟩

/-- C27: on `mixedImage`, whose segments are disjoint, `decode(0x2000)` with the
code segment cached returns a push record when the indeterminate content of
`opcode` is 0x50, while `decode(0x2000)` on a freshly constructed decoder
returns a record bound to the Unknown shape when that content is 0x00: the
code segment ends before the opcode and the failed read is not tested. -/
theorem cache_outcome_depends_on_stale_opcode :
    mixedImage.Disjoint ∧
    Reachable mixedImage ((Decoder.init mixedImage 0).decode 0x2001 0).2 ∧
    ((Decoder.init mixedImage 0).decode 0x2001 0).2 = ⟨mixedImage, 0x2000, ⟨[0x90, 0x90], 2⟩⟩ ∧
    ((((Decoder.init mixedImage 0).decode 0x2001 0).2).decode 0x2000 0x50).1 =
      some { _addr := 0x2000, _size := 2, _inst := PUSH, args := [0], _target := none } ∧
    ((Decoder.init mixedImage 0).decode 0x2000 0x00).1 =
      some { _addr := 0x2000, _size := 2, _inst := UNKNOWN, args := [], _target := none } :=
  ⟨mixedImage_disjoint, Reachable.step _ _ (Reachable.init 0), by decide, by decide, by decide⟩

/-- C28: whenever `decode(a)` returns no record the decoder is left as it was:
same cached base address, same cached buffer, same cursor offset. -/
theorem decode_failure_atomic (d : Decoder) (a uninit : Nat)
    (h : (d.decode a uninit).1 = none) :
    (d.decode a uninit).2 = d ∧ (d.decode a uninit).2.base = d.base ∧
    (d.decode a uninit).2.curs.buf = d.curs.buf ∧
    (d.decode a uninit).2.curs.offset = d.curs.offset := by
  rcases Decoder.decode_cases d a uninit with ⟨-, h0⟩ | ⟨d1, j, d3, -, h1, -⟩
  · rw [h0]
    exact ⟨rfl, rfl, rfl, rfl⟩
  · rw [h1] at h
    simp at h

/-- C28, instance: `decode(0x1000)` in the data segment of `mixedImage` with the
code segment cached. -/
theorem decode_failure_atomic_witness :
    ((((Decoder.init mixedImage 0).decode 0x2001 0).2).decode 0x1000 0).1 = none ∧
    ((Decoder.init mixedImage 0).decode 0x2001 0).2 =
      ⟨mixedImage, 0x2000, ⟨[0x90, 0x90], 2⟩⟩ ∧
    ((((Decoder.init mixedImage 0).decode 0x2001 0).2).decode 0x1000 0).2 =
      ((Decoder.init mixedImage 0).decode 0x2001 0).2 :=
  ⟨by decide, by decide,
    (decode_failure_atomic ((Decoder.init mixedImage 0).decode 0x2001 0).2 0x1000 0
      (by decide)).1⟩

/-! ### ModR/M fields and the register table -/

/-- C22: for every byte `b`, `modrm_mod b` is bits 7-6, `modrm_reg b` bits 5-3 and
`modrm_rm b` bits 2-0 of `b`: they are below 4, 8 and 8 and
`b = 64 * mod + 8 * reg + rm`. -/
theorem modrm_split (b : Nat) (hb : b < 256) :
    modrm_mod b < 4 ∧ modrm_reg b < 8 ∧ modrm_rm b < 8 ∧
    b = 64 * modrm_mod b + 8 * modrm_reg b + modrm_rm b ∧
    modrm_mod b = b / 64 ∧ modrm_reg b = b / 8 % 8 ∧ modrm_rm b = b % 8 := by
  interval_cases b <;> decide

/-- C22, instance: the byte 0xC3 splits into mod 3, reg 0, rm 3. -/
theorem modrm_split_witness :
    (0xC3 < 256) ∧ modrm_mod 0xC3 = 3 ∧ modrm_reg 0xC3 = 0 ∧ modrm_rm 0xC3 = 3 ∧
    (modrm_mod 0xC3 < 4 ∧ modrm_reg 0xC3 < 8 ∧ modrm_rm 0xC3 < 8 ∧
      0xC3 = 64 * modrm_mod 0xC3 + 8 * modrm_reg 0xC3 + modrm_rm 0xC3 ∧
      modrm_mod 0xC3 = 0xC3 / 64 ∧ modrm_reg 0xC3 = 0xC3 / 8 % 8 ∧ modrm_rm 0xC3 = 0xC3 % 8) :=
  ⟨by decide, by decide, by decide, by decide, modrm_split 0xC3 (by decide)⟩

/-- C23: the names carried by the registers of `reg32`, in order.  Position 5 holds
the register `EBP`, which `x86.cpp` builds with `Register::Make("EBS")`: its
name is "EBS", not the "EBP" of the encoding table. -/
theorem reg32_names :
    reg32.length = 8 ∧
    reg32.map (fun r => r.name) = ["EAX", "ECX", "EDX", "EBX", "ESP", "EBS", "ESI", "EDI"] ∧
    (reg32[5]?).map (fun r => r.name) = some "EBS" ∧
    (reg32[5]?).map (fun r => r.name) ≠ some "EBP" ∧ reg32[5]? = some EBP := by
  decide

/-- C30: the record `decode` returns for 83 C0 01 read as opcode, ModR/M and
immediate (behind two padding bytes) keeps a reference to the temporary
returned by `alu_imm`; its operand count and operand kinds are read from a
destroyed object, so the lookups of `dump`, `readRegSet` and `writeRegSet` are
not bounded by anything: all three are undefined on it. -/
theorem alu_record_shape_dangles (hex showAddr : Nat → String) (platformNumber : Register → Nat)
    (uninit : Nat) :
    ((single 0x1000 [0x90, 0x90, 0x83, 0xC0, 0x01]).decode 0x1000 uninit).1 =
      some { _addr := 0x1000, _size := 5, _inst := Decoder.alu_imm 0, args := [0x01, 0],
             _target := none, _instDangling := true } ∧
    Inst.dump hex showAddr
      { _addr := 0x1000, _size := 5, _inst := Decoder.alu_imm 0, args := [0x01, 0],
        _target := none, _instDangling := true } = none ∧
    Inst.readRegSet platformNumber
      { _addr := 0x1000, _size := 5, _inst := Decoder.alu_imm 0, args := [0x01, 0],
        _target := none, _instDangling := true } [] = none ∧
    Inst.writeRegSet platformNumber
      { _addr := 0x1000, _size := 5, _inst := Decoder.alu_imm 0, args := [0x01, 0],
        _target := none, _instDangling := true } [] = none := by
  rw [Decoder.decode_uninit _ _ uninit 0 (by decide)]
  exact ⟨by decide, rfl, rfl, rfl⟩

/-! ### The guard of `target()` and the branch record of the other decoder -/

/-- C24: `target()` returns the memo `_target` only when it is null and returns
null otherwise, so every call of `target()` on every record, the first one and
any later one, returns no target. -/
theorem target_guard (i : Inst) (dec : Decoder) (uninit : Nat) :
    (i._target = none → i.target dec uninit = (none, i, dec)) ∧
    (i._target ≠ none → (i.target dec uninit).1 = none) ∧
    (i.target dec uninit).1 = none ∧
    ∀ u2, ((i.target dec uninit).2.1.target (i.target dec uninit).2.2 u2).1 = none := by
  refine ⟨fun h => ?_, fun _ => Inst.target_fst i dec uninit, Inst.target_fst i dec uninit,
    fun u2 => Inst.target_fst _ _ u2⟩
  rw [Inst.target_eq_targetWith]
  exact Inst.targetWith_of_null _ i dec h

/-- C24, instance: the short jump record, with a null memo and with a memo set. -/
theorem target_guard_witness :
    (Inst.new 0x2000 4 JMP)._target = none ∧
    Inst.target { _addr := 0x2000, _size := 4, _inst := JMP, args := [5], _target := none }
      (single 0x2000 jumpBytes) 0 =
      (none, { _addr := 0x2000, _size := 4, _inst := JMP, args := [5], _target := none },
        single 0x2000 jumpBytes) ∧
    (Inst.target
      { _addr := 0x2000, _size := 4, _inst := JMP, args := [5],
        _target := some ⟨0x2009, 3, UNKNOWN, []⟩ }
      (single 0x2000 jumpBytes) 0).1 = none :=
  ⟨rfl,
    (target_guard { _addr := 0x2000, _size := 4, _inst := JMP, args := [5], _target := none }
      (single 0x2000 jumpBytes) 0).1 rfl,
    (target_guard
      { _addr := 0x2000, _size := 4, _inst := JMP, args := [5],
        _target := some ⟨0x2009, 3, UNKNOWN, []⟩ }
      (single 0x2000 jumpBytes) 0).2.1 (by decide)⟩

/-- C26: for the `Branch` record of `zygdis_decoder.cpp` over a given `decode`:
`target()` returns no target and calls nothing when the kind is indirect;
otherwise a first call (null memo) returns `decode(a + s + o)` and stores it;
and once a call has returned a non-null record `x`, the memo holds `x` and every
later call returns `x`, leaves the record and the decoder state as they are and
does not depend on `decode`. -/
theorem branch_target {ι σ : Type} (decode : Nat → σ → Option ι × σ) (b : zygdis.Branch ι)
    (st : σ) :
    (isIndirect b.k = true → b.target decode st = (none, b, st)) ∧
    (isIndirect b.k = false → b.t = none →
      b.target decode st =
        ((decode b.dest st).1, { b with t := (decode b.dest st).1 }, (decode b.dest st).2)) ∧
    (isIndirect b.k = false → ∀ x, (b.target decode st).1 = some x →
      (b.target decode st).2.1.t = some x ∧
      ∀ (decode2 : Nat → σ → Option ι × σ) (st2 : σ),
        (b.target decode st).2.1.target decode2 st2 = (some x, (b.target decode st).2.1, st2)) := by
  refine ⟨fun h => ?_, fun h ht => ?_, fun h x hx => ?_⟩
  · unfold zygdis.Branch.target
    rw [if_pos h]
  · unfold zygdis.Branch.target
    rw [if_neg (by simp [h])]
    cases b with
    | mk a s k o t =>
      simp only [] at ht
      subst ht
      rfl
  · have hk : ¬ (isIndirect b.k = true) := by simp [h]
    have key : (b.target decode st).2.1.k = b.k ∧ (b.target decode st).2.1.t = some x := by
      unfold zygdis.Branch.target at hx ⊢
      rw [if_neg hk] at hx ⊢
      cases b with
      | mk a s k o t =>
        cases t with
        | none => exact ⟨rfl, hx⟩
        | some y => exact ⟨rfl, hx⟩
    refine ⟨key.2, fun decode2 st2 => ?_⟩
    generalize (b.target decode st).2.1 = b2 at key
    obtain ⟨k1, k2⟩ := key
    unfold zygdis.Branch.target
    rw [if_neg (by rw [k1]; exact hk)]
    cases b2 with
    | mk a s k o t =>
      simp only [] at k2
      subst k2
      rfl

/-- C26, instance: an indirect branch, and a direct branch at 0x2000 of size 2
with offset 5 over a `decode` that counts its calls. -/
theorem branch_target_witness :
    isIndirect (IS_CONTROL ||| IS_INDIRECT) = true ∧ isIndirect IS_CONTROL = false ∧
    (zygdis.Branch.new Nat 0x2000 2 IS_CONTROL 5).dest = 0x2007 ∧
    (zygdis.Branch.new Nat 0x2000 2 (IS_CONTROL ||| IS_INDIRECT) 0).target
      (fun a (n : Nat) => (some a, n + 1)) 0 =
      (none, zygdis.Branch.new Nat 0x2000 2 (IS_CONTROL ||| IS_INDIRECT) 0, 0) ∧
    (zygdis.Branch.new Nat 0x2000 2 IS_CONTROL 5).target (fun a (n : Nat) => (some a, n + 1)) 0 =
      (some 0x2007, { zygdis.Branch.new Nat 0x2000 2 IS_CONTROL 5 with t := some 0x2007 }, 1) ∧
    (∀ (decode2 : Nat → Nat → Option Nat × Nat) (st2 : Nat),
      ((zygdis.Branch.new Nat 0x2000 2 IS_CONTROL 5).target
        (fun a (n : Nat) => (some a, n + 1)) 0).2.1.target decode2 st2 =
      (some 0x2007, ((zygdis.Branch.new Nat 0x2000 2 IS_CONTROL 5).target
        (fun a (n : Nat) => (some a, n + 1)) 0).2.1, st2)) :=
  ⟨by decide, by decide, by decide,
    (branch_target (fun a (n : Nat) => (some a, n + 1))
      (zygdis.Branch.new Nat 0x2000 2 (IS_CONTROL ||| IS_INDIRECT) 0) 0).1 (by decide),
    (branch_target (fun a (n : Nat) => (some a, n + 1))
      (zygdis.Branch.new Nat 0x2000 2 IS_CONTROL 5) 0).2.1 (by decide) rfl,
    ((branch_target (fun a (n : Nat) => (some a, n + 1))
      (zygdis.Branch.new Nat 0x2000 2 IS_CONTROL 5) 0).2.2 (by decide) 0x2007 (by decide)).2⟩

/-! ### The escape 0F 1E -/

/-- C25: the bytes 0F 1E FB at 0x1000 are not decoded as endbr32: the `switch` sees
the third byte 0xFB as the opcode, its ModR/M read fails and the record is
bound to the Unknown shape.  With the byte F3 in front (the full encoding of
endbr32) the record is bound to the Unknown shape as well. -/
theorem endbr32_not_decoded (uninit : Nat) :
    ((single 0x1000 [0x0F, 0x1E, 0xFB]).decode 0x1000 uninit).1 =
      some { _addr := 0x1000, _size := 3, _inst := UNKNOWN, args := [], _target := none } ∧
    ((single 0x1000 [0xF3, 0x0F, 0x1E, 0xFB]).decode 0x1000 uninit).1 =
      some { _addr := 0x1000, _size := 4, _inst := UNKNOWN, args := [], _target := none } := by
  rw [Decoder.decode_uninit _ _ uninit 0 (by decide), Decoder.decode_uninit _ _ uninit 0 (by decide)]
  decide

/-! ### Formats of the catalogue -/

/-- C29: the shape `JMP` is not well formed for rendering: in its format "jmp %p"
the `%` is followed by `p`, for which `dump` computes the index
`'p' - '0' = 64` and reads `_inst.args[64]`, outside the four entries.  The
seven other shapes are well formed. -/
theorem jmp_format_not_well_formed :
    JMP.wellFormed = false ∧ JMP.format = "jmp %p" ∧ 'p'.toNat - '0'.toNat = 64 ∧
    JMP.args[64]? = none ∧
    (∀ s ∈ [MOV32, MOVI_DIS8, PUSH, POP, SUB32I, ENDBR32, UNKNOWN], s.wellFormed = true) ∧
    ((single 0x2000 jumpBytes).decode 0x2000 0).1 =
      some { _addr := 0x2000, _size := 4, _inst := JMP, args := [5], _target := none } ∧
    Inst.dump (fun _ => "") (fun _ => "")
      { _addr := 0x2000, _size := 4, _inst := JMP, args := [5], _target := none } = none := by
  decide

end otawa.x86
